import Mathlib

/-!
Verification of the brainer repository against its specification.

Two subsystems are embedded:
* the EPUB structure-normalization pipeline (label classifier, front-matter
  filtering, final numbering, slug generation, course-plan emission) — the
  pipeline scripts are not part of the checked-in sources, so these
  definitions are modelled from the specification text (each carries a
  doc comment saying so);
* the course-authoring REST backend (src/api): chapter, exercise, user and
  submission operations, translated from the Python routers and models.
-/

namespace Brainer

namespace Pipeline

/-- Modelled from the spec: the label classifier's semantic kinds (part,
chapter, other); the pipeline scripts are missing from src, so the classifier
is reconstructed from the rules of section 4.1 of the spec. -/
inductive LabelKind where
  | part
  | chapter
  | other
  deriving DecidableEq, Repr

/-- Modelled from the spec: the classifier's result, the triple
(kind, extracted number or none, cleaned title). -/
structure ClassResult where
  kind : LabelKind
  num : Option Nat
  title : String
  deriving DecidableEq, Repr

/-- ASCII lower-casing of a single character. -/
def lowerChar (c : Char) : Char :=
  if 'A' ≤ c && c ≤ 'Z' then Char.ofNat (c.toNat + 32) else c

/-- Lower-cased character list of a string. -/
def lowerStr (s : String) : List Char :=
  s.data.map lowerChar

/-- Characters admissible in a Roman numeral. -/
def isRomanChar (c : Char) : Bool :=
  c == 'I' || c == 'V' || c == 'X' || c == 'L' || c == 'C' || c == 'D' || c == 'M'

/-- Value of a single Roman-numeral character. -/
def romanVal (c : Char) : Nat :=
  if c == 'I' then 1
  else if c == 'V' then 5
  else if c == 'X' then 10
  else if c == 'L' then 50
  else if c == 'C' then 100
  else if c == 'D' then 500
  else if c == 'M' then 1000
  else 0

/-- Modelled from the spec: standard subtractive Roman-numeral decoding
over the list of character values. -/
def romanDecode : List Nat → Nat
  | [] => 0
  | [v] => v
  | v :: w :: rest => if v < w then romanDecode (w :: rest) - v else v + romanDecode (w :: rest)

/-- Separator characters accepted after a heading number. -/
def isSepChar (c : Char) : Bool :=
  c == '.' || c == ':' || c == '-'

/-- Decimal value of a digit-character list. -/
def decValue (ds : List Char) : Nat :=
  ds.foldl (fun a c => 10 * a + (c.toNat - 48)) 0

/-- Case-insensitive test that `w` begins the character list `l`. -/
def ciIsPre (w : List Char) (l : List Char) : Bool :=
  (w.map lowerChar).isPrefixOf (l.map lowerChar)

/-- Modelled from the spec: rule one of section 4.1 — a Roman-numeral run
followed by a separator classifies as a part, with the numeral decoded and
the remainder (stripped of spaces) as the cleaned title. -/
def tryRomanPart (l : List Char) : Option ClassResult :=
  let rom := l.takeWhile isRomanChar
  match l.dropWhile isRomanChar with
  | c :: rest =>
      if !rom.isEmpty && isSepChar c then
        some ⟨.part, some (romanDecode (rom.map romanVal)),
              String.mk (rest.dropWhile (fun x => x == ' '))⟩
      else none
  | [] => none

/-- Modelled from the spec: the word "chapter" (case-insensitive), optional
spaces, a digit run, and an optional separator classify as a chapter; this
covers both "Chapter 3: Title" and the compact "Chapter3Title" variant. -/
def tryChapterWord (l : List Char) : Option ClassResult :=
  if ciIsPre "chapter".data l then
    let rest := (l.drop 7).dropWhile (fun c => c == ' ')
    let ds := rest.takeWhile Char.isDigit
    if ds.isEmpty then none
    else
      some ⟨.chapter, some (decValue ds),
            String.mk ((rest.dropWhile Char.isDigit).dropWhile
              (fun c => isSepChar c || c == ' '))⟩
  else none

/-- Modelled from the spec: the word "part" (case-insensitive) followed by a
Roman numeral or a digit run classifies as a part; covers the compact
"PartIVTitle" variant. -/
def tryPartWord (l : List Char) : Option ClassResult :=
  if ciIsPre "part".data l then
    let rest := (l.drop 4).dropWhile (fun c => c == ' ')
    let rom := rest.takeWhile isRomanChar
    if !rom.isEmpty then
      some ⟨.part, some (romanDecode (rom.map romanVal)),
            String.mk ((rest.dropWhile isRomanChar).dropWhile
              (fun c => isSepChar c || c == ' '))⟩
    else
      let ds := rest.takeWhile Char.isDigit
      if ds.isEmpty then none
      else
        some ⟨.part, some (decValue ds),
              String.mk ((rest.dropWhile Char.isDigit).dropWhile
                (fun c => isSepChar c || c == ' '))⟩
  else none

/-- Modelled from the spec: a dotted-decimal label such as "1.1 Memory"
denotes a subsection and classifies as other, keeping the whole label as
title; per section 4.1 this check runs before the generic leading-number
rule. -/
def tryDotted (label : String) (l : List Char) : Option ClassResult :=
  let ds := l.takeWhile Char.isDigit
  match l.dropWhile Char.isDigit with
  | '.' :: c :: _ =>
      if !ds.isEmpty && c.isDigit then some ⟨.other, none, label⟩ else none
  | _ => none

/-- Modelled from the spec: generic leading-number rule — a digit run
followed by a separator classifies as a chapter. -/
def tryLeadingNum (l : List Char) : Option ClassResult :=
  let ds := l.takeWhile Char.isDigit
  match l.dropWhile Char.isDigit with
  | c :: rest =>
      if !ds.isEmpty && isSepChar c then
        some ⟨.chapter, some (decValue ds),
              String.mk (rest.dropWhile (fun x => x == ' '))⟩
      else none
  | [] => none

/-- Modelled from the spec: the label classifier of section 4.1 — the rules
are tried in priority order, first match wins, with the dotted-decimal check
placed before the generic leading-number rule; everything else is other. -/
def classifyLabel (label : String) : ClassResult :=
  let l := label.data
  (((((tryRomanPart l).orElse fun _ => tryChapterWord l).orElse
      fun _ => tryPartWord l).orElse
      fun _ => tryDotted label l).orElse
      fun _ => tryLeadingNum l).getD ⟨.other, none, label⟩

/-- Digit character of a value below ten. -/
def digitChar : Nat → Char
  | 0 => '0'
  | 1 => '1'
  | 2 => '2'
  | 3 => '3'
  | 4 => '4'
  | 5 => '5'
  | 6 => '6'
  | 7 => '7'
  | 8 => '8'
  | _ => '9'

/-- Decimal digit characters of a natural number (most significant first). -/
def natChars (n : Nat) : List Char :=
  if _h : n < 10 then [digitChar n]
  else natChars (n / 10) ++ [digitChar (n % 10)]
decreasing_by exact Nat.div_lt_self (by omega) (by omega)

/-- Modelled from the spec: the 02d-style formatting of a chapter number —
a leading zero pads single-digit numbers to width two. -/
def fmt2 (n : Nat) : List Char :=
  if n < 10 then '0' :: natChars n else natChars n

/-- Modelled from the spec: base-slug normalization of a cleaned title —
lower-case, keep ASCII letters and digits, map spaces to hyphens, drop the
rest. -/
def slugify (s : String) : String :=
  String.mk ((s.data.map lowerChar).filterMap (fun c =>
    if c.isAlpha || c.isDigit then some c
    else if c == ' ' then some '-'
    else none))

/-- Modelled from the spec: the pre-collision slug candidate
"chapter-" then the zero-padded final number then "-" then the base slug. -/
def slugCandidate (n : Nat) (base : String) : String :=
  "chapter-" ++ String.mk (fmt2 n) ++ "-" ++ base

/-- The fixed character prefix shared by every slug candidate. -/
def chapPre : List Char := "chapter-".data

/-- A slug that carries chapter number m: prefix, zero-padded digits of m,
then a first non-digit character. Every generated slug has this shape, and
the shape determines m, which drives the collision-freedom argument. -/
def numSlug (m : Nat) (u : String) : Prop :=
  ∃ c rest, u.data = chapPre ++ fmt2 m ++ c :: rest ∧ c.isDigit = false

/-- Drop everything from the last hyphen of the list onwards (the hyphen
included); empty when the list has no hyphen. -/
def cutLastHyphen (l : List Char) : List Char :=
  ((l.reverse.dropWhile (fun c => c != '-')).drop 1).reverse

/-- Modelled from the spec: slugs longer than the 80-character budget are
truncated at a hyphen boundary and receive a trailing ellipsis marker. -/
def truncate80 (s : String) : String :=
  if s.length ≤ 80 then s
  else String.mk (cutLastHyphen (s.data.take 77) ++ ['.', '.', '.'])

/-- Counter loop of the collision scheme: try suffixes -1, -2, ... until a
candidate is not in use (the fuel always suffices in reachable states). -/
def uniquifyFrom (used : List String) (s : String) : Nat → Nat → String
  | _, 0 => s
  | k, fuel + 1 =>
      let cand := s ++ "-" ++ String.mk (natChars k)
      if cand ∈ used then uniquifyFrom used s (k + 1) fuel else cand

/-- Modelled from the spec: a numeric suffix counter is appended on
collision with an already-assigned slug. -/
def uniquify (used : List String) (s : String) : String :=
  if s ∈ used then uniquifyFrom used s 1 (used.length + 1) else s

/-- Modelled from the spec: the final slug of a chapter — candidate from the
final number and slugified title, truncated to the 80-character budget, with
the collision counter applied against the slugs already assigned. -/
def slugFor (used : List String) (n : Nat) (title : String) : String :=
  uniquify used (truncate80 (slugCandidate n (slugify title)))

/-- Modelled from the spec: a detected chapter before final numbering — the
declared number from the source label is provenance only. -/
structure PChapter where
  declared : Option Nat
  title : String
  content : String
  deriving DecidableEq, Repr

/-- Modelled from the spec: a chapter of the final output, carrying the
dense sequential number, the unique slug, and the retained declared
number. -/
structure FinalChapter where
  num : Nat
  title : String
  slug : String
  declared : Option Nat
  content : String
  deriving DecidableEq, Repr

/-- Modelled from the spec: the fixed front-matter denylist of section
4.3. -/
def frontMatterTerms : List String :=
  ["preface", "foreword", "dedication", "acknowledgment", "acknowledgement",
   "copyright", "table of contents", "contents", "about the author",
   "introduction"]

/-- Substring test over character lists. -/
def containsSub (needle : List Char) : List Char → Bool
  | [] => needle.isEmpty
  | c :: t => needle.isPrefixOf (c :: t) || containsSub needle t

/-- Modelled from the spec: a chapter is front matter when its title
case-insensitively contains any denylist term. -/
def isFrontMatter (title : String) : Bool :=
  frontMatterTerms.any (fun t => containsSub t.data (lowerStr title))

/-- Modelled from the spec: final numbering and slug assignment — each
surviving chapter, in final list order, receives the next dense sequence
number and a slug checked against all slugs assigned so far. -/
def assignChapters : Nat → List String → List PChapter → List FinalChapter
  | _, _, [] => []
  | i, used, c :: rest =>
      let slug := slugFor used i c.title
      ⟨i, c.title, slug, c.declared, c.content⟩ :: assignChapters (i + 1) (slug :: used) rest

/-- Modelled from the spec: chapter-level finalization — front-matter
filtering, then dense renumbering from one and slug generation. -/
def finalize (cs : List PChapter) : List FinalChapter :=
  assignChapters 1 [] (cs.filter (fun c => !isFrontMatter c.title))

/-- Stateless description of the assignment used in proofs: the chapters in
order, numbered from `i`, each with the untruncated-candidate slug passed
through the length cap. -/
def pureAssign : Nat → List PChapter → List FinalChapter
  | _, [] => []
  | i, c :: rest =>
      ⟨i, c.title, truncate80 (slugCandidate i (slugify c.title)), c.declared, c.content⟩
        :: pureAssign (i + 1) rest

/-- Modelled from the spec: a detected part — order key, title and the
chapters discovered under it. -/
structure DetPart where
  order : Nat
  title : String
  chapters : List PChapter
  deriving DecidableEq, Repr

/-- Modelled from the spec: a part of the final course plan. -/
structure PlanPart where
  order : Nat
  title : String
  chapters : List FinalChapter
  deriving DecidableEq, Repr

/-- Modelled from the spec: the course-plan artifact — course title, ordered
parts with their chapters, and the summary counts. -/
structure CoursePlan where
  courseTitle : String
  parts : List PlanPart
  summaryParts : Nat
  summaryChapters : Nat
  deriving DecidableEq, Repr

/-- Modelled from the spec: numbering and slug state threaded across parts —
chapter numbers and the used-slug set are global to the whole book. -/
def assignParts : Nat → List String → List DetPart → List PlanPart
  | _, _, [] => []
  | i, used, p :: rest =>
      let chs := assignChapters i used p.chapters
      ⟨p.order, p.title, chs⟩ ::
        assignParts (i + chs.length) (chs.map (fun c => c.slug) ++ used) rest

/-- Modelled from the spec: front-matter filtering applied inside one
part. -/
def filterPart (p : DetPart) : DetPart :=
  ⟨p.order, p.title, p.chapters.filter (fun c => !isFrontMatter c.title)⟩

/-- Modelled from the spec: full finalization — filter front matter inside
every part, destroy parts left with zero chapters, then assign global
numbering and slugs across the whole book. -/
def finalizeParts (ps : List DetPart) : List PlanPart :=
  assignParts 1 [] ((ps.map filterPart).filter (fun p => !p.chapters.isEmpty))

/-- Modelled from the spec: a loaded document — path, markup content, the
heading texts found in it and the role markers of enclosing elements. -/
structure Doc where
  path : String
  content : String
  headings : List String
  roles : List String
  deriving DecidableEq, Repr

/-- Modelled from the spec: a navigation node — label, source reference and
ordered children. -/
inductive NavNode where
  | mk (label : String) (href : String) (children : List NavNode)

/-- Label of a navigation node. -/
def NavNode.label : NavNode → String
  | .mk l _ _ => l

/-- Source reference of a navigation node. -/
def NavNode.href : NavNode → String
  | .mk _ h _ => h

/-- Children of a navigation node. -/
def NavNode.children : NavNode → List NavNode
  | .mk _ _ cs => cs

/-- Modelled from the spec: the content-driven detection signal of section
4.3 — a part or chapter role marker, a filename pattern, or a heading text
that the classifier recognizes as a part or chapter. -/
def contentSignal (d : Doc) : Bool :=
  d.roles.any (fun r => r == "chapter" || r == "part") ||
  containsSub "chapter".data (lowerStr d.path) ||
  containsSub "part".data (lowerStr d.path) ||
  d.headings.any (fun h => (classifyLabel h).kind != LabelKind.other)

/-- Modelled from the spec: chapter record built from a document in the
content-driven fallback — number and title extracted from the first heading
(or the path) through the classifier patterns. -/
def docChapter (d : Doc) : PChapter :=
  let cr := classifyLabel (d.headings.headD d.path)
  ⟨cr.num, cr.title, d.content⟩

/-- Modelled from the spec: content-driven fallback — documents are
inspected in reading order and those with a part or chapter signal become
chapters. -/
def contentDriven (docs : List Doc) : List PChapter :=
  docs.filterMap (fun d => if contentSignal d then some (docChapter d) else none)

/-- Flush the part being accumulated: parts that end with zero chapters are
dropped. -/
def flushPart (ps : List DetPart) : Option DetPart → List DetPart
  | none => ps
  | some p => if p.chapters.isEmpty then ps else ps ++ [p]

mutual

/-- Modelled from the spec: one step of the depth-first TOC walk — a part
label flushes the current part and opens a new one, a chapter label appends
a chapter to the current part (creating the synthetic part zero "General"
when none is open, and not walking the chapter's children), any other label
is skipped but its children are still walked. -/
def walkNode (docs : List Doc) (acc : List DetPart × Option DetPart) :
    NavNode → List DetPart × Option DetPart
  | .mk label href children =>
      let cr := classifyLabel label
      match cr.kind with
      | .part => (flushPart acc.1 acc.2, some ⟨cr.num.getD 0, cr.title, []⟩)
      | .chapter =>
          let content := (((docs.find? (fun d => d.path == href)).map
            (fun d => d.content))).getD ""
          let ch : PChapter := ⟨cr.num, cr.title, content⟩
          match acc.2 with
          | some p => (acc.1, some ⟨p.order, p.title, p.chapters ++ [ch]⟩)
          | none => (acc.1, some ⟨0, "General", [ch]⟩)
      | .other => walkNodes docs acc children

/-- Depth-first walk over a navigation forest. -/
def walkNodes (docs : List Doc) (acc : List DetPart × Option DetPart) :
    List NavNode → List DetPart × Option DetPart
  | [] => acc
  | n :: rest => walkNodes docs (walkNode docs acc n) rest

end

/-- Modelled from the spec: TOC-driven detection — walk the navigation
forest and flush the last accumulated part. -/
def tocDriven (docs : List Doc) (nav : List NavNode) : List DetPart :=
  let acc := walkNodes docs ([], none) nav
  flushPart acc.1 acc.2

/-- Modelled from the spec: detection entry point — TOC-driven when any
navigation exists, content-driven fallback otherwise, ungrouped fallback
chapters living in the synthetic part zero "General". -/
def detectParts (nav : List NavNode) (docs : List Doc) : List DetPart :=
  if nav.isEmpty then
    let chs := contentDriven docs
    if chs.isEmpty then [] else [⟨0, "General", chs⟩]
  else tocDriven docs nav

/-- Modelled from the spec: course-plan emission with the summary counts
computed from the parts. -/
def buildPlan (title : String) (parts : List PlanPart) : CoursePlan :=
  ⟨title, parts, parts.length, (parts.map (fun p => p.chapters.length)).sum⟩

/-- Structural validity of a course plan: the summary counts agree with the
parts and chapters actually listed. -/
def planValid (p : CoursePlan) : Bool :=
  p.summaryParts == p.parts.length &&
  p.summaryChapters == (p.parts.map (fun q => q.chapters.length)).sum

/-- Modelled from the spec: the pipeline orchestrator — fatal only when no
content document loads at all; otherwise detection, finalization and plan
emission, with zero detected chapters producing an empty but valid plan. -/
def pipelineRun (bookTitle : String) (nav : List NavNode) (docs : List Doc) :
    Except String CoursePlan :=
  if docs.isEmpty then .error "no content documents found"
  else .ok (buildPlan bookTitle (finalizeParts (detectParts nav docs)))

/-- The run's output chapter list: the chapters of the final plan parts, in
part order. -/
def flatChapters (pps : List PlanPart) : List FinalChapter :=
  pps.foldr (fun p acc => p.chapters ++ acc) []

/-- The detected chapters of a part list, flattened in order. -/
def detChapters (ps : List DetPart) : List PChapter :=
  ps.foldr (fun p acc => p.chapters ++ acc) []

/-- Rewriting the declared numbers of every chapter of a part, keeping
titles, contents and order intact. -/
def setDeclared (g : PChapter → Option Nat) (p : DetPart) : DetPart :=
  ⟨p.order, p.title, p.chapters.map (fun c => ⟨g c, c.title, c.content⟩)⟩

/-- The ordering-relevant projection of an output chapter: final number,
title and slug. -/
def chapterKey (c : FinalChapter) : Nat × String × String :=
  (c.num, c.title, c.slug)

/-- Concrete detected input exercising both the short-slug and the
truncated-slug paths. -/
def wParts : List DetPart :=
  [⟨1, "Part One",
    [⟨some 7, "Chapter 1: Databases", "x"⟩,
     ⟨none, String.mk ("A Profoundly Comprehensive And Exceedingly Detailed ".data ++
       "Treatise Concerning The Architecture Of Modern Distributed Data Systems".data),
       "y"⟩]⟩]

/-- Concrete document with no part or chapter signal at all. -/
def wDocs : List Doc :=
  [⟨"body.xhtml", "<p>x</p>", ["Untitled"], []⟩]

end Pipeline

namespace Api

/-- Row of the users table (src/api/models.py, class User). -/
structure UserRow where
  id : Nat
  email : String
  username : String
  hashed_password : String
  is_active : Bool
  deriving DecidableEq, Repr

/-- Row of the courses table (src/api/models.py, class Course). -/
structure CourseRow where
  id : Nat
  title : String
  slug : String
  description : Option String
  image : Option String
  deriving DecidableEq, Repr

/-- Row of the parts table (src/api/models.py, class Part). -/
structure PartRow where
  id : Nat
  course_id : Nat
  order : Int
  title : String
  description : Option String
  deriving DecidableEq, Repr

/-- Row of the chapters table (src/api/models.py, class Chapter). -/
structure ChapterRow where
  id : Nat
  course_id : Nat
  part_id : Option Nat
  order : Int
  title : String
  slug : String
  content : Option String
  synopsis : Option String
  image : Option String
  deriving DecidableEq, Repr

/-- Exercise types (src/api/models.py, ExerciseType). -/
inductive ExType where
  | multiple_choice
  | code
  | true_false
  deriving DecidableEq, Repr

/-- One multiple-choice option as stored in the JSON content column; the
correctness flag is read with a get with default, hence optional here. -/
structure JsonOption where
  text : String
  is_correct : Option Bool
  deriving DecidableEq, Repr

/-- JSON content column of an exercise, restricted to the keys the
evaluation code reads: answer (for true_false, absent or non-boolean
modelled as none) and options (absent modelled as the empty list, matching
the get with default). -/
structure JsonContent where
  answer : Option Bool
  options : List JsonOption
  deriving DecidableEq, Repr

/-- Row of the exercises table (src/api/models.py, class Exercise). -/
structure ExerciseRow where
  id : Nat
  chapter_id : Nat
  order : Int
  title : String
  type : ExType
  content : JsonContent
  image : Option String
  auto_generated : Bool
  deriving DecidableEq, Repr

/-- A submitted answer: the payload schema admits an int, a bool or a
string (src/api/schemas.py, ExerciseSubmissionCreate); the separate bool
constructor mirrors the isinstance bool guard of the Python code. -/
inductive AnswerValue where
  | int (i : Int)
  | bool (b : Bool)
  | str (s : String)
  deriving DecidableEq, Repr

/-- Row of the user_exercise_submissions table. -/
structure SubmissionRow where
  id : Nat
  user_id : Nat
  exercise_id : Nat
  answer : AnswerValue
  is_correct : Bool
  deriving DecidableEq, Repr

/-- The relational state touched by the routers under verification, with
the autoincrement counters. -/
structure ApiDB where
  users : List UserRow
  courses : List CourseRow
  parts : List PartRow
  chapters : List ChapterRow
  exercises : List ExerciseRow
  submissions : List SubmissionRow
  nextUserId : Nat
  nextCourseId : Nat
  nextPartId : Nat
  nextChapterId : Nat
  nextExerciseId : Nat
  nextSubmissionId : Nat
  deriving DecidableEq, Repr

/-- The empty database. -/
def emptyDB : ApiDB :=
  ⟨[], [], [], [], [], [], 1, 1, 1, 1, 1, 1⟩

/-- Errors surfaced by the handlers: 404, 409, and an uncaught database
integrity error (a unique-constraint violation at commit). -/
inductive ApiErr where
  | notFound (what : String)
  | conflict (what : String)
  | integrity
  deriving DecidableEq, Repr

/-- Unique constraint on courses.slug. -/
def courseRel (a b : CourseRow) : Prop :=
  a.slug ≠ b.slug

instance : DecidableRel courseRel := fun a b => by
  unfold courseRel; infer_instance

/-- Unique constraint uq_part_course_order. -/
def partRel (a b : PartRow) : Prop :=
  ¬(a.course_id = b.course_id ∧ a.order = b.order)

instance : DecidableRel partRel := fun a b => by
  unfold partRel; infer_instance

/-- The two unique constraints of the chapters table:
uq_chapter_course_order and uq_chapter_course_slug. -/
def chapterRel (a b : ChapterRow) : Prop :=
  ¬(a.course_id = b.course_id ∧ a.order = b.order) ∧
  ¬(a.course_id = b.course_id ∧ a.slug = b.slug)

instance : DecidableRel chapterRel := fun a b => by
  unfold chapterRel; infer_instance

/-- Unique constraint uq_exercise_chapter_order. -/
def exerciseRel (a b : ExerciseRow) : Prop :=
  ¬(a.chapter_id = b.chapter_id ∧ a.order = b.order)

instance : DecidableRel exerciseRel := fun a b => by
  unfold exerciseRel; infer_instance

/-- A table satisfies its pairwise unique constraints. -/
def courseConstraints (l : List CourseRow) : Prop := l.Pairwise courseRel

/-- Parts table constraint. -/
def partConstraints (l : List PartRow) : Prop := l.Pairwise partRel

/-- Chapters table constraints. -/
def chapterConstraints (l : List ChapterRow) : Prop := l.Pairwise chapterRel

/-- Exercises table constraint. -/
def exerciseConstraints (l : List ExerciseRow) : Prop := l.Pairwise exerciseRel

instance (l : List CourseRow) : Decidable (courseConstraints l) :=
  List.instDecidablePairwise l

instance (l : List PartRow) : Decidable (partConstraints l) :=
  List.instDecidablePairwise l

instance (l : List ChapterRow) : Decidable (chapterConstraints l) :=
  List.instDecidablePairwise l

instance (l : List ExerciseRow) : Decidable (exerciseConstraints l) :=
  List.instDecidablePairwise l

/-- db.query(Course).filter(Course.slug == slug).first()
(src/api/routers/chapters.py, _get_course). -/
def findCourse (db : ApiDB) (slug : String) : Option CourseRow :=
  db.courses.find? (fun c => c.slug == slug)

/-- db.query(Chapter).filter(Chapter.slug == s, Chapter.course_id == cid)
.first() (src/api/routers/chapters.py, _get_chapter_by_slug). -/
def findChapterBySlug (db : ApiDB) (cid : Nat) (s : String) : Option ChapterRow :=
  db.chapters.find? (fun c => c.course_id == cid && c.slug == s)

/-- Request body of POST /courses (src/api/schemas.py, CourseCreate). -/
structure CourseCreate where
  title : String
  slug : String
  description : Option String
  image : Option String
  deriving DecidableEq, Repr

/-- Request body of POST /courses/slug/parts (schemas.py, PartCreate). -/
structure PartCreate where
  order : Int
  title : String
  description : Option String
  deriving DecidableEq, Repr

/-- Request body of POST /courses/slug/chapters (schemas.py,
ChapterCreate): the caller supplies order and slug. -/
structure ChapterCreate where
  part_id : Option Nat
  order : Int
  title : String
  slug : String
  content : Option String
  synopsis : Option String
  image : Option String
  deriving DecidableEq, Repr

/-- Request body of PUT on a chapter (schemas.py, ChapterUpdate) with
exclude_unset semantics: an outer none means the field was not supplied and
is left untouched; nullable columns carry an inner option. -/
structure ChapterUpdate where
  part_id : Option (Option Nat)
  order : Option Int
  title : Option String
  slug : Option String
  content : Option (Option String)
  synopsis : Option (Option String)
  image : Option (Option String)
  deriving DecidableEq, Repr

/-- The update that was not supplied at all (every field unset). -/
def ChapterUpdate.empty : ChapterUpdate :=
  ⟨none, none, none, none, none, none, none⟩

/-- The setattr loop of update_chapter over model_dump(exclude_unset=True):
each supplied field overwrites the column, each unsupplied field is kept
(src/api/routers/chapters.py, update_chapter). -/
def applyChapterUpdate (req : ChapterUpdate) (c : ChapterRow) : ChapterRow :=
  { c with
    part_id := req.part_id.getD c.part_id
    order := req.order.getD c.order
    title := req.title.getD c.title
    slug := req.slug.getD c.slug
    content := req.content.getD c.content
    synopsis := req.synopsis.getD c.synopsis
    image := req.image.getD c.image }

/-- Replace the first chapter row of the given course and slug (the row
.first() returns) by its updated version. -/
def replaceFirstChapter (cid : Nat) (s : String) (c' : ChapterRow) :
    List ChapterRow → List ChapterRow
  | [] => []
  | c :: rest =>
      if c.course_id == cid && c.slug == s then c' :: rest
      else c :: replaceFirstChapter cid s c' rest

/-- POST /courses (src/api/routers/courses.py, create_course): insert and
commit; a unique-constraint violation at commit surfaces as an uncaught
integrity error. -/
def createCourse (db : ApiDB) (req : CourseCreate) :
    Except ApiErr (ApiDB × CourseRow) :=
  let row : CourseRow := ⟨db.nextCourseId, req.title, req.slug, req.description, req.image⟩
  let rows := db.courses ++ [row]
  if courseConstraints rows then
    .ok ({ db with courses := rows, nextCourseId := db.nextCourseId + 1 }, row)
  else .error .integrity

/-- DELETE /courses/slug (src/api/routers/courses.py, delete_course) with
the cascading foreign keys of models.py: parts and chapters of the course,
and exercises of those chapters, are removed. -/
def deleteCourse (db : ApiDB) (slug : String) : Except ApiErr ApiDB :=
  match findCourse db slug with
  | none => .error (.notFound slug)
  | some course =>
      let deadChapters := db.chapters.filter (fun c => c.course_id == course.id)
      .ok { db with
        courses := db.courses.eraseP (fun c => c.slug == slug),
        parts := db.parts.filter (fun p => !(p.course_id == course.id)),
        chapters := db.chapters.filter (fun c => !(c.course_id == course.id)),
        exercises := db.exercises.filter
          (fun e => !(deadChapters.any (fun c => c.id == e.chapter_id))) }

/-- POST /courses/slug/parts (src/api/routers/courses.py, create_part). -/
def createPart (db : ApiDB) (courseSlug : String) (req : PartCreate) :
    Except ApiErr (ApiDB × PartRow) :=
  match findCourse db courseSlug with
  | none => .error (.notFound courseSlug)
  | some course =>
      let row : PartRow := ⟨db.nextPartId, course.id, req.order, req.title, req.description⟩
      let rows := db.parts ++ [row]
      if partConstraints rows then
        .ok ({ db with parts := rows, nextPartId := db.nextPartId + 1 }, row)
      else .error .integrity

/-- DELETE /courses/slug/parts/id (src/api/routers/courses.py,
delete_part) with the cascade on chapters.part_id and their exercises. -/
def deletePart (db : ApiDB) (courseSlug : String) (partId : Nat) :
    Except ApiErr ApiDB :=
  match findCourse db courseSlug with
  | none => .error (.notFound courseSlug)
  | some course =>
      match db.parts.find? (fun p => p.id == partId && p.course_id == course.id) with
      | none => .error (.notFound "part")
      | some _ =>
          let deadChapters := db.chapters.filter (fun c => c.part_id == some partId)
          .ok { db with
            parts := db.parts.eraseP (fun p => p.id == partId && p.course_id == course.id),
            chapters := db.chapters.filter (fun c => !(c.part_id == some partId)),
            exercises := db.exercises.filter
              (fun e => !(deadChapters.any (fun c => c.id == e.chapter_id))) }

/-- POST /courses/slug/chapters (src/api/routers/chapters.py,
create_chapter): the new row takes every field, order and slug included,
from the request; commit enforces the unique constraints. -/
def createChapter (db : ApiDB) (courseSlug : String) (req : ChapterCreate) :
    Except ApiErr (ApiDB × ChapterRow) :=
  match findCourse db courseSlug with
  | none => .error (.notFound courseSlug)
  | some course =>
      let row : ChapterRow := ⟨db.nextChapterId, course.id, req.part_id, req.order,
        req.title, req.slug, req.content, req.synopsis, req.image⟩
      let rows := db.chapters ++ [row]
      if chapterConstraints rows then
        .ok ({ db with chapters := rows, nextChapterId := db.nextChapterId + 1 }, row)
      else .error .integrity

/-- PUT /courses/slug/chapters/chapterSlug (src/api/routers/chapters.py,
update_chapter): resolve the course by slug, the chapter by slug within the
course, apply exactly the supplied fields, commit under the unique
constraints. -/
def updateChapter (db : ApiDB) (courseSlug chapterSlug : String)
    (req : ChapterUpdate) : Except ApiErr (ApiDB × ChapterRow) :=
  match findCourse db courseSlug with
  | none => .error (.notFound courseSlug)
  | some course =>
      match findChapterBySlug db course.id chapterSlug with
      | none => .error (.notFound chapterSlug)
      | some c =>
          let c' := applyChapterUpdate req c
          let rows := replaceFirstChapter course.id chapterSlug c' db.chapters
          if chapterConstraints rows then
            .ok ({ db with chapters := rows }, c')
          else .error .integrity

/-- DELETE /courses/slug/chapters/chapterSlug (src/api/routers/chapters.py,
delete_chapter): the row .first() returned is deleted, its exercises
cascade. -/
def deleteChapter (db : ApiDB) (courseSlug chapterSlug : String) :
    Except ApiErr ApiDB :=
  match findCourse db courseSlug with
  | none => .error (.notFound courseSlug)
  | some course =>
      match findChapterBySlug db course.id chapterSlug with
      | none => .error (.notFound chapterSlug)
      | some c =>
          .ok { db with
            chapters :=
              db.chapters.eraseP (fun x => x.course_id == course.id && x.slug == chapterSlug),
            exercises := db.exercises.filter (fun e => !(e.chapter_id == c.id)) }

/-- Request body of POST /chapters/id/exercises (schemas.py,
ExerciseCreate): it has no order field. -/
structure ExerciseCreate where
  title : String
  type : ExType
  content : JsonContent
  image : Option String
  auto_generated : Bool
  deriving DecidableEq, Repr

/-- The next order for a chapter (src/api/routers/exercises.py,
_next_order): one more than the maximum existing order in the chapter, with
the SQL null of an empty chapter read as zero. -/
def nextOrder (db : ApiDB) (chId : Nat) : Int :=
  (((db.exercises.filter (fun e => e.chapter_id == chId)).map
    (fun e => e.order)).max?).getD 0 + 1

/-- POST /chapters/id/exercises (src/api/routers/exercises.py,
create_exercise): the order is computed by _next_order, never taken from
the request. -/
def createExercise (db : ApiDB) (chId : Nat) (req : ExerciseCreate) :
    Except ApiErr (ApiDB × ExerciseRow) :=
  if db.chapters.any (fun c => c.id == chId) then
    let row : ExerciseRow := ⟨db.nextExerciseId, chId, nextOrder db chId,
      req.title, req.type, req.content, req.image, req.auto_generated⟩
    let rows := db.exercises ++ [row]
    if exerciseConstraints rows then
      .ok ({ db with exercises := rows, nextExerciseId := db.nextExerciseId + 1 }, row)
    else .error .integrity
  else .error (.notFound "chapter")

/-- DELETE /chapters/id/exercises/exId (src/api/routers/exercises.py,
delete_exercise). -/
def deleteExercise (db : ApiDB) (chId exId : Nat) : Except ApiErr ApiDB :=
  if db.chapters.any (fun c => c.id == chId) then
    match db.exercises.find? (fun e => e.id == exId && e.chapter_id == chId) with
    | none => .error (.notFound "exercise")
    | some _ =>
        .ok { db with exercises :=
          db.exercises.eraseP (fun e => e.id == exId && e.chapter_id == chId) }
  else .error (.notFound "chapter")

/-- src/api/routers/progress.py, _evaluate_correctness: code exercises are
always wrong; true_false compares a boolean answer with the stored one;
multiple_choice rejects non-integer and boolean answers, bounds-checks the
index, and reads the selected option's is_correct with a false default. -/
def evaluateCorrectness (ex : ExerciseRow) (ans : AnswerValue) : Bool :=
  match ex.type with
  | .true_false =>
      match ans with
      | .bool b => ex.content.answer == some b
      | _ => false
  | .multiple_choice =>
      match ans with
      | .int i =>
          if i < 0 || (ex.content.options.length : Int) ≤ i then false
          else
            match ex.content.options[i.toNat]? with
            | some o => o.is_correct.getD false
            | none => false
      | _ => false
  | .code => false

/-- POST /chapters/cid/exercises/eid/submit (src/api/routers/progress.py,
submit_exercise_answer with _upsert_exercise_submission): resolve the
exercise within the chapter, evaluate correctness, then insert or update
the single submission row of this user and exercise. -/
def submitAnswer (db : ApiDB) (userId chapterId exerciseId : Nat)
    (ans : AnswerValue) : Except ApiErr (ApiDB × SubmissionRow) :=
  match db.exercises.find? (fun e => e.id == exerciseId && e.chapter_id == chapterId) with
  | none => .error (.notFound "exercise")
  | some ex =>
      let correct := evaluateCorrectness ex ans
      match db.submissions.find? (fun s => s.user_id == userId && s.exercise_id == exerciseId) with
      | some old =>
          let row := { old with answer := ans, is_correct := correct }
          .ok ({ db with submissions :=
            db.submissions.map (fun s => if s.id == old.id then row else s) }, row)
      | none =>
          let row : SubmissionRow := ⟨db.nextSubmissionId, userId, exerciseId, ans, correct⟩
          let subs := db.submissions ++ [row]
          .ok ({ db with submissions := subs,
                         nextSubmissionId := db.nextSubmissionId + 1 }, row)

/-- Request body of POST /auth/register (schemas.py, UserCreate). -/
structure UserCreate where
  email : String
  username : String
  password : String
  deriving DecidableEq, Repr

/-- POST /auth/register (src/api/routers/auth.py, register), parametrized
by the bcrypt hash function: the stored credential is the hash of the
password; a unique-constraint violation on email or username rolls the
transaction back (first component unchanged) and returns 409 Conflict. -/
def register (hashPw : String → String) (db : ApiDB) (req : UserCreate) :
    ApiDB × Except ApiErr UserRow :=
  let user : UserRow := ⟨db.nextUserId, req.email, req.username, hashPw req.password, true⟩
  if db.users.any (fun u => u.email == req.email || u.username == req.username) then
    (db, .error (.conflict req.email))
  else
    ({ db with users := db.users ++ [user], nextUserId := db.nextUserId + 1 }, .ok user)

/-- The states reachable from the empty database through the service's
create, update and delete operations (plus registration and answer
submission, which do not touch the content tables). -/
inductive Reachable : ApiDB → Prop where
  | init : Reachable emptyDB
  | createCourse {db db' : ApiDB} {req : CourseCreate} {r : CourseRow} :
      Reachable db → createCourse db req = .ok (db', r) → Reachable db'
  | deleteCourse {db db' : ApiDB} {slug : String} :
      Reachable db → deleteCourse db slug = .ok db' → Reachable db'
  | createPart {db db' : ApiDB} {slug : String} {req : PartCreate} {r : PartRow} :
      Reachable db → createPart db slug req = .ok (db', r) → Reachable db'
  | deletePart {db db' : ApiDB} {slug : String} {partId : Nat} :
      Reachable db → deletePart db slug partId = .ok db' → Reachable db'
  | createChapter {db db' : ApiDB} {slug : String} {req : ChapterCreate} {r : ChapterRow} :
      Reachable db → createChapter db slug req = .ok (db', r) → Reachable db'
  | updateChapter {db db' : ApiDB} {slug chSlug : String} {req : ChapterUpdate} {r : ChapterRow} :
      Reachable db → updateChapter db slug chSlug req = .ok (db', r) → Reachable db'
  | deleteChapter {db db' : ApiDB} {slug chSlug : String} :
      Reachable db → deleteChapter db slug chSlug = .ok db' → Reachable db'
  | createExercise {db db' : ApiDB} {chId : Nat} {req : ExerciseCreate} {r : ExerciseRow} :
      Reachable db → createExercise db chId req = .ok (db', r) → Reachable db'
  | deleteExercise {db db' : ApiDB} {chId exId : Nat} :
      Reachable db → deleteExercise db chId exId = .ok db' → Reachable db'
  | submitAnswer {db db' : ApiDB} {u c e : Nat} {ans : AnswerValue} {r : SubmissionRow} :
      Reachable db → submitAnswer db u c e ans = .ok (db', r) → Reachable db'
  | register {db : ApiDB} {hashPw : String → String} {req : UserCreate} :
      Reachable db → Reachable (register hashPw db req).1

/-- A sequence of exercise creations into one chapter with no interleaved
deletions: each creation feeds the next state, stopping at the first
error. -/
def createMany (db : ApiDB) (ch : Nat) : List ExerciseCreate → Except ApiErr ApiDB
  | [] => .ok db
  | r :: rest =>
      match createExercise db ch r with
      | .ok (db', _) => createMany db' ch rest
      | .error e => .error e

/-- Concrete course row used in the reachability counterexamples. -/
def cxCourseRow : CourseRow := ⟨1, "C", "c", none, none⟩

/-- State after creating one course in the empty database. -/
def cxDb1 : ApiDB := ⟨[], [cxCourseRow], [], [], [], [], 1, 2, 1, 1, 1, 1⟩

/-- Concrete chapter row with caller-chosen order five. -/
def cxChapterRow : ChapterRow := ⟨1, 1, none, 5, "T", "t", none, none, none⟩

/-- State after additionally creating one chapter whose request carried
order five. -/
def cxDb2 : ApiDB := ⟨[], [cxCourseRow], [], [cxChapterRow], [], [], 1, 2, 1, 2, 1, 1⟩

/-- Density check: the orders of a list are exactly one up to its length. -/
def denseFrom1 (os : List Int) : Bool :=
  (List.range os.length).all (fun k => os.contains ((k : Int) + 1))

/-- Every course's chapter orders form the dense sequence from one. -/
def courseOrdersDense (db : ApiDB) : Bool :=
  db.courses.all (fun course =>
    denseFrom1 ((db.chapters.filter (fun c => c.course_id == course.id)).map
      (fun c => c.order)))

/-- Concrete update request supplying only the title. -/
def wUpdReq : ChapterUpdate := ⟨none, none, some "T2", none, none, none, none⟩

/-- Expected state after the concrete title update. -/
def wUpdDb : ApiDB :=
  ⟨[], [cxCourseRow], [], [⟨1, 1, none, 5, "T2", "t", none, none, none⟩], [], [],
   1, 2, 1, 2, 1, 1⟩

/-- Concrete multiple-choice exercise with a correct second option. -/
def wExMC : ExerciseRow :=
  ⟨1, 1, 1, "Q", .multiple_choice, ⟨none, [⟨"a", some false⟩, ⟨"b", some true⟩]⟩, none, false⟩

/-- Concrete code exercise. -/
def wExCode : ExerciseRow := ⟨2, 1, 2, "C", .code, ⟨none, []⟩, none, false⟩

/-- Concrete state holding the multiple-choice exercise for submission. -/
def wSubDb : ApiDB := ⟨[], [], [], [], [wExMC], [], 1, 1, 1, 1, 3, 1⟩

/-- Concrete state with one registered user. -/
def wUserDb : ApiDB :=
  ⟨[⟨1, "a@x", "alice", "h", true⟩], [], [], [], [], [], 2, 1, 1, 1, 1, 1⟩

/-- Two concrete exercise-creation requests (no order field exists). -/
def wExReqs : List ExerciseCreate :=
  [⟨"E1", .code, ⟨none, []⟩, none, false⟩, ⟨"E2", .code, ⟨none, []⟩, none, false⟩]

end Api

end Brainer

namespace Brainer

open Pipeline Api

theorem assignChapters_map_num : ∀ (l : List PChapter) (i : Nat) (used : List String),
    (assignChapters i used l).map (fun c => c.num) = List.range' i l.length := by
  intro l
  induction l with
  | nil => intro i used; simp [assignChapters]
  | cons c rest ih => intro i used; simp [assignChapters, List.range', ih]

theorem assignChapters_length : ∀ (l : List PChapter) (i : Nat) (used : List String),
    (assignChapters i used l).length = l.length := by
  intro l
  induction l with
  | nil => intro i used; rfl
  | cons c rest ih => intro i used; simp [assignChapters, ih]

theorem detChapters_cons (p : DetPart) (rest : List DetPart) :
    detChapters (p :: rest) = p.chapters ++ detChapters rest := rfl

theorem flatChapters_cons (p : PlanPart) (rest : List PlanPart) :
    flatChapters (p :: rest) = p.chapters ++ flatChapters rest := rfl

theorem flatChapters_assignParts_num : ∀ (ps : List DetPart) (i : Nat) (used : List String),
    (flatChapters (assignParts i used ps)).map (fun c => c.num)
      = List.range' i (detChapters ps).length := by
  intro ps
  induction ps with
  | nil => intro i used; simp [assignParts, flatChapters, detChapters]
  | cons p rest ih =>
      intro i used
      rw [assignParts, flatChapters_cons, detChapters_cons, List.map_append,
        assignChapters_map_num, List.length_append]
      have hlen : (assignChapters i used p.chapters).length = p.chapters.length :=
        assignChapters_length _ _ _
      rw [ih, hlen]
      have := List.range'_append i p.chapters.length (detChapters rest).length 1
      simp only [Nat.one_mul] at this
      rw [this, Nat.add_comm]



theorem assignChapters_setDecl_key (g : PChapter → Option Nat) :
    ∀ (l : List PChapter) (i : Nat) (used : List String),
      (assignChapters i used (l.map (fun c => ⟨g c, c.title, c.content⟩))).map chapterKey
        = (assignChapters i used l).map chapterKey := by
  intro l
  induction l with
  | nil => intro i used; rfl
  | cons c rest ih =>
      intro i used
      simp only [List.map_cons, assignChapters, chapterKey, ih]

theorem assignChapters_setDecl_slug (g : PChapter → Option Nat) :
    ∀ (l : List PChapter) (i : Nat) (used : List String),
      (assignChapters i used (l.map (fun c => ⟨g c, c.title, c.content⟩))).map (fun c => c.slug)
        = (assignChapters i used l).map (fun c => c.slug) := by
  intro l
  induction l with
  | nil => intro i used; rfl
  | cons c rest ih =>
      intro i used
      simp only [List.map_cons, assignChapters, ih]

theorem assignParts_setDecl_key (g : PChapter → Option Nat) :
    ∀ (ps : List DetPart) (i : Nat) (used : List String),
      (flatChapters (assignParts i used (ps.map (setDeclared g)))).map chapterKey
        = (flatChapters (assignParts i used ps)).map chapterKey := by
  intro ps
  induction ps with
  | nil => intro i used; rfl
  | cons p rest ih =>
      intro i used
      have hk := assignChapters_setDecl_key g p.chapters i used
      have hs := assignChapters_setDecl_slug g p.chapters i used
      have hlen : (assignChapters i used
            (p.chapters.map (fun c => ⟨g c, c.title, c.content⟩))).length
          = (assignChapters i used p.chapters).length := by
        rw [assignChapters_length, assignChapters_length, List.length_map]
      simp only [List.map_cons, assignParts, flatChapters_cons, List.map_append, setDeclared]
      rw [hs, hlen, ih, hk]



theorem flatChapters_assignParts_length : ∀ (ps : List DetPart) (i : Nat) (used : List String),
    (flatChapters (assignParts i used ps)).length = (detChapters ps).length := by
  intro ps
  induction ps with
  | nil => intro i used; rfl
  | cons p rest ih =>
      intro i used
      simp only [assignParts, flatChapters_cons, detChapters_cons, List.length_append,
        assignChapters_length, ih]

theorem isEmpty_map_eq {α β : Type} (f : α → β) (l : List α) :
    (l.map f).isEmpty = l.isEmpty := by
  cases l <;> rfl

theorem filterPart_setDeclared (g : PChapter → Option Nat) (p : DetPart) :
    filterPart (setDeclared g p) = setDeclared g (filterPart p) := by
  simp only [filterPart, setDeclared, List.filter_map]
  congr 1

theorem filtered_setDecl (g : PChapter → Option Nat) (ps : List DetPart) :
    ((ps.map (setDeclared g)).map filterPart).filter (fun p => !p.chapters.isEmpty)
      = ((ps.map filterPart).filter (fun p => !p.chapters.isEmpty)).map (setDeclared g) := by
  induction ps with
  | nil => rfl
  | cons p rest ih =>
      simp only [List.map_map] at ih
      simp only [List.map_cons, List.filter_cons, filterPart_setDeclared g p, List.map_map]
      have he : (setDeclared g (filterPart p)).chapters.isEmpty
          = (filterPart p).chapters.isEmpty := by
        simp only [setDeclared]
        exact isEmpty_map_eq _ _
      rw [he]
      by_cases hc : (filterPart p).chapters.isEmpty
      · simp [hc, ih]
      · simp [hc, ih]

theorem all_filter_self {α : Type} (q : α → Bool) (l : List α) : (l.filter q).all q = true := by
  induction l with
  | nil => rfl
  | cons a t ih => by_cases h : q a <;> simp [List.filter_cons, h, ih]

theorem flat_assignParts_all (p : String → Bool) : ∀ (ps : List DetPart) (i : Nat) (used : List String),
    (flatChapters (assignParts i used ps)).all (fun c => p c.title)
      = (detChapters ps).all (fun c => p c.title) := by
  intro ps
  induction ps with
  | nil => intro i used; rfl
  | cons q rest ih =>
      intro i used
      have hch : ∀ (l : List PChapter) (j : Nat) (u : List String),
          (assignChapters j u l).all (fun c => p c.title) = l.all (fun c => p c.title) := by
        intro l
        induction l with
        | nil => intro j u; rfl
        | cons c t ihc => intro j u; simp [assignChapters, ihc]
      simp [assignParts, flatChapters_cons, detChapters_cons, List.all_append, hch, ih]

theorem detChapters_filtered_all (ps : List DetPart) :
    (detChapters ((ps.map filterPart).filter (fun p => !p.chapters.isEmpty))).all
      (fun c => !isFrontMatter c.title) = true := by
  induction ps with
  | nil => rfl
  | cons p rest ih =>
      simp only [List.map_cons, List.filter_cons]
      by_cases hc : (filterPart p).chapters.isEmpty
      · simp [hc, ih]
      · simp only [hc, Bool.not_false, if_true, detChapters_cons, List.all_append,
          Bool.and_eq_true]
        exact ⟨all_filter_self _ _, ih⟩

theorem output_no_front_matter : ∀ (ps : List DetPart),
    (flatChapters (finalizeParts ps)).all (fun c => !isFrontMatter c.title) = true := by
  intro ps
  unfold finalizeParts
  rw [flat_assignParts_all (fun t => !isFrontMatter t)]
  exact detChapters_filtered_all ps

theorem output_no_preface : ∀ (ps : List DetPart),
    (flatChapters (finalizeParts ps)).all (fun c => c.title != "Preface") = true := by
  intro ps
  have h := output_no_front_matter ps
  rw [List.all_eq_true] at h ⊢
  intro c hc
  have hcf := h c hc
  by_cases ht : c.title = "Preface"
  · rw [ht] at hcf
    exact absurd hcf (by decide)
  · simp [bne, ht]

theorem chapPre_length : chapPre.length = 8 := rfl

theorem digitChar_toNat (n : Nat) (h : n < 10) : (digitChar n).toNat = 48 + n := by
  interval_cases n <;> rfl

theorem natChars_lt (n : Nat) (h : n < 10) : natChars n = [digitChar n] := by
  rw [natChars]
  simp [h]

theorem natChars_ge (n : Nat) (h : ¬ n < 10) :
    natChars n = natChars (n / 10) ++ [digitChar (n % 10)] := by
  rw [natChars]
  simp [h]

theorem slugCandidate_data (n : Nat) (base : String) :
    (slugCandidate n base).data = chapPre ++ fmt2 n ++ '-' :: base.data := by
  simp [slugCandidate, chapPre, String.data_append]



theorem dropWhile_append_all {α : Type} (p : α → Bool) :
    ∀ (x y : List α), (∀ c ∈ x, p c = true) → (x ++ y).dropWhile p = y.dropWhile p := by
  intro x
  induction x with
  | nil => intro y _; rfl
  | cons a t ih =>
      intro y hall
      rw [List.cons_append, List.dropWhile_cons, if_pos (hall a (by simp))]
      exact ih y (fun c hc => hall c (by simp [hc]))

theorem cutLastHyphen_spec (a b : List Char) (hb : '-' ∉ b) :
    cutLastHyphen (a ++ '-' :: b) = a := by
  unfold cutLastHyphen
  rw [List.reverse_append, List.reverse_cons, List.append_assoc,
    dropWhile_append_all _ b.reverse _ (by
      intro c hc
      have hcb : c ∈ b := List.mem_reverse.mp hc
      have hne : c ≠ '-' := fun h => hb (h ▸ hcb)
      simp [hne])]
  rw [show ['-'] ++ a.reverse = '-' :: a.reverse from rfl, List.dropWhile_cons]
  simp



theorem splitLastHyphen : ∀ (l : List Char), '-' ∈ l →
    ∃ a b, l = a ++ '-' :: b ∧ '-' ∉ b := by
  intro l
  induction l with
  | nil => intro h; cases h
  | cons c t ih =>
      intro h
      by_cases hm : '-' ∈ t
      · obtain ⟨a, b, hab, hb⟩ := ih hm
        exact ⟨c :: a, b, by rw [hab]; rfl, hb⟩
      · have hc : c = '-' := by
          rcases List.mem_cons.mp h with h1 | h2
          · exact h1.symm
          · exact absurd h2 hm
        exact ⟨[], t, by rw [hc]; rfl, hm⟩

theorem dropWhile_length_le {α : Type} (p : α → Bool) (l : List α) :
    (l.dropWhile p).length ≤ l.length := by
  induction l with
  | nil => simp
  | cons a t ih =>
      rw [List.dropWhile_cons]
      by_cases h : p a
      · simp only [h, if_true]
        exact Nat.le_succ_of_le ih
      · simp [h]

theorem cutLastHyphen_length_le (l : List Char) : (cutLastHyphen l).length ≤ l.length := by
  unfold cutLastHyphen
  rw [List.length_reverse, List.length_drop]
  have h1 := dropWhile_length_le (fun c => c != '-') l.reverse
  rw [List.length_reverse] at h1
  omega

theorem truncate80_length (s : String) : (truncate80 s).length ≤ 80 := by
  unfold truncate80
  by_cases h : s.length ≤ 80
  · simp [h]
  · simp only [h, if_false]
    show (cutLastHyphen (s.data.take 77) ++ ['.', '.', '.']).length ≤ 80
    rw [List.length_append]
    have h1 := cutLastHyphen_length_le (s.data.take 77)
    have h2 : (s.data.take 77).length ≤ 77 := by
      rw [List.length_take]; omega
    simp only [List.length_cons, List.length_nil]
    omega



theorem pureAssign_mem : ∀ (l : List PChapter) (i : Nat) (c : FinalChapter),
    c ∈ pureAssign i l →
      i ≤ c.num ∧ c.num < i + l.length ∧
        c.slug = truncate80 (slugCandidate c.num (slugify c.title)) := by
  intro l
  induction l with
  | nil => intro i c h; cases h
  | cons c0 rest ih =>
      intro i c h
      rcases List.mem_cons.mp h with h1 | h2
      · subst h1
        exact ⟨Nat.le_refl i, by simp, rfl⟩
      · obtain ⟨ha, hb, hc⟩ := ih (i + 1) c h2
        exact ⟨by omega, by simp only [List.length_cons]; omega, hc⟩

theorem pureAssign_length : ∀ (l : List PChapter) (i : Nat),
    (pureAssign i l).length = l.length := by
  intro l
  induction l with
  | nil => intro i; rfl
  | cons c rest ih => intro i; simp [pureAssign, ih]

theorem pureAssign_append : ∀ (a b : List PChapter) (i : Nat),
    pureAssign i (a ++ b) = pureAssign i a ++ pureAssign (i + a.length) b := by
  intro a
  induction a with
  | nil => intro b i; simp [pureAssign]
  | cons c rest ih =>
      intro b i
      simp only [List.cons_append, pureAssign, List.length_cons, List.append_eq, ih]
      rw [show i + (rest.length + 1) = i + 1 + rest.length by omega]

theorem filtered_detChapters_len_le (ps : List DetPart) :
    (detChapters ((ps.map filterPart).filter (fun p => !p.chapters.isEmpty))).length
      ≤ (detChapters ps).length := by
  induction ps with
  | nil => simp [detChapters]
  | cons p rest ih =>
      simp only [List.map_cons, List.filter_cons]
      by_cases hc : (filterPart p).chapters.isEmpty
      · rw [if_neg (by simp [hc])]
        rw [detChapters_cons, List.length_append]
        omega
      · rw [if_pos (by simp [hc])]
        rw [detChapters_cons, detChapters_cons, List.length_append, List.length_append]
        have h1 : (filterPart p).chapters.length ≤ p.chapters.length :=
          List.length_filter_le _ _
        omega

theorem contentDriven_nil (docs : List Doc) (h : ∀ d ∈ docs, contentSignal d = false) :
    contentDriven docs = [] := by
  unfold contentDriven
  rw [List.filterMap_eq_nil_iff]
  intro d hd
  rw [h d hd]
  rfl

theorem createCourse_chapters {db db' : ApiDB} {req : CourseCreate} {r : CourseRow}
    (he : createCourse db req = .ok (db', r)) : db'.chapters = db.chapters := by
  unfold createCourse at he
  try dsimp only at he
  split at he
  · simp only [Except.ok.injEq, Prod.mk.injEq] at he
    rw [← he.1]
  · cases he

theorem deleteCourse_chapters {db db' : ApiDB} {slug : String}
    (he : deleteCourse db slug = .ok db') : db'.chapters.Sublist db.chapters := by
  unfold deleteCourse at he
  try dsimp only at he
  split at he
  · cases he
  · simp only [Except.ok.injEq] at he
    rw [← he]
    exact List.filter_sublist _

theorem createPart_chapters {db db' : ApiDB} {slug : String} {req : PartCreate} {r : PartRow}
    (he : createPart db slug req = .ok (db', r)) : db'.chapters = db.chapters := by
  unfold createPart at he
  try dsimp only at he
  split at he
  · cases he
  · split at he
    · simp only [Except.ok.injEq, Prod.mk.injEq] at he
      rw [← he.1]
    · cases he

theorem deletePart_chapters {db db' : ApiDB} {slug : String} {partId : Nat}
    (he : deletePart db slug partId = .ok db') : db'.chapters.Sublist db.chapters := by
  unfold deletePart at he
  try dsimp only at he
  split at he
  · cases he
  · split at he
    · cases he
    · simp only [Except.ok.injEq] at he
      rw [← he]
      exact List.filter_sublist _

theorem createChapter_ok {db db' : ApiDB} {slug : String} {req : ChapterCreate} {r : ChapterRow}
    (he : createChapter db slug req = .ok (db', r)) : chapterConstraints db'.chapters := by
  unfold createChapter at he
  try dsimp only at he
  split at he
  · cases he
  · rename_i course hcourse
    split at he
    · rename_i hcons
      simp only [Except.ok.injEq, Prod.mk.injEq] at he
      rw [← he.1]
      exact hcons
    · cases he

theorem updateChapter_ok {db db' : ApiDB} {slug chSlug : String} {req : ChapterUpdate} {r : ChapterRow}
    (he : updateChapter db slug chSlug req = .ok (db', r)) : chapterConstraints db'.chapters := by
  unfold updateChapter at he
  try dsimp only at he
  split at he
  · cases he
  · split at he
    · cases he
    · split at he
      · rename_i hcons
        simp only [Except.ok.injEq, Prod.mk.injEq] at he
        rw [← he.1]
        exact hcons
      · cases he

theorem deleteChapter_chapters {db db' : ApiDB} {slug chSlug : String}
    (he : deleteChapter db slug chSlug = .ok db') : db'.chapters.Sublist db.chapters := by
  unfold deleteChapter at he
  try dsimp only at he
  split at he
  · cases he
  · split at he
    · cases he
    · simp only [Except.ok.injEq] at he
      rw [← he]
      exact List.eraseP_sublist _

theorem createExercise_chapters {db db' : ApiDB} {chId : Nat} {req : ExerciseCreate} {r : ExerciseRow}
    (he : createExercise db chId req = .ok (db', r)) : db'.chapters = db.chapters := by
  unfold createExercise at he
  try dsimp only at he
  split at he
  · split at he
    · simp only [Except.ok.injEq, Prod.mk.injEq] at he
      rw [← he.1]
    · cases he
  · cases he

theorem deleteExercise_chapters {db db' : ApiDB} {chId exId : Nat}
    (he : deleteExercise db chId exId = .ok db') : db'.chapters = db.chapters := by
  unfold deleteExercise at he
  try dsimp only at he
  split at he
  · split at he
    · cases he
    · simp only [Except.ok.injEq] at he
      rw [← he]
  · cases he

theorem submitAnswer_chapters {db db' : ApiDB} {u c e : Nat} {ans : AnswerValue} {r : SubmissionRow}
    (he : submitAnswer db u c e ans = .ok (db', r)) : db'.chapters = db.chapters := by
  unfold submitAnswer at he
  try dsimp only at he
  split at he
  · cases he
  · split at he
    · simp only [Except.ok.injEq, Prod.mk.injEq] at he
      rw [← he.1]
    · simp only [Except.ok.injEq, Prod.mk.injEq] at he
      rw [← he.1]

theorem register_chapters (hashPw : String → String) (db : ApiDB) (req : UserCreate) :
    ((register hashPw db req).1).chapters = db.chapters := by
  unfold register
  dsimp only
  split
  · rfl
  · rfl

theorem reachable_chapterConstraints : ∀ (db : ApiDB), Reachable db →
    chapterConstraints db.chapters := by
  intro db h
  induction h with
  | init => exact List.Pairwise.nil
  | createCourse _ he ih => rw [createCourse_chapters he]; exact ih
  | deleteCourse _ he ih => exact List.Pairwise.sublist (deleteCourse_chapters he) ih
  | createPart _ he ih => rw [createPart_chapters he]; exact ih
  | deletePart _ he ih => exact List.Pairwise.sublist (deletePart_chapters he) ih
  | createChapter _ he _ => exact createChapter_ok he
  | updateChapter _ he _ => exact updateChapter_ok he
  | deleteChapter _ he ih => exact List.Pairwise.sublist (deleteChapter_chapters he) ih
  | createExercise _ he ih => rw [createExercise_chapters he]; exact ih
  | deleteExercise _ he ih => rw [deleteExercise_chapters he]; exact ih
  | submitAnswer _ he ih => rw [submitAnswer_chapters he]; exact ih
  | register _ ih => rw [register_chapters]; exact ih



theorem createChapter_dup_slug_fails :
    ∀ (db : ApiDB) (course : CourseRow) (slug : String) (req : ChapterCreate),
      findCourse db slug = some course →
      (∃ c ∈ db.chapters, c.course_id = course.id ∧ c.slug = req.slug) →
      createChapter db slug req = .error .integrity := by
  intro db course slug req hc hex
  obtain ⟨c, hcm, hcid, hcslug⟩ := hex
  unfold createChapter
  rw [hc]
  dsimp only
  rw [if_neg]
  intro hcons
  unfold chapterConstraints at hcons
  rw [List.pairwise_append] at hcons
  have hrel := hcons.2.2 c hcm _ (List.mem_singleton.mpr rfl)
  unfold chapterRel at hrel
  exact hrel.2 ⟨hcid, hcslug⟩

theorem find?_decomp {α : Type} (p : α → Bool) :
    ∀ (l : List α) (a : α), l.find? p = some a →
      ∃ l₁ l₂, l = l₁ ++ a :: l₂ ∧ (∀ x ∈ l₁, p x = false) ∧ p a = true := by
  intro l
  induction l with
  | nil => intro a h; cases h
  | cons c rest ih =>
      intro a h
      rw [List.find?_cons] at h
      by_cases hc : p c
      · rw [hc] at h
        obtain rfl : c = a := by injection h
        exact ⟨[], rest, rfl, ⟨fun x hx => absurd hx (List.not_mem_nil x), hc⟩⟩
      · rw [Bool.eq_false_iff.mpr hc] at h
        obtain ⟨l₁, l₂, h1, h2, h3⟩ := ih a h
        refine ⟨c :: l₁, l₂, by rw [h1]; rfl, ?_, h3⟩
        intro x hx
        rcases List.mem_cons.mp hx with rfl | hx2
        · exact Bool.not_eq_true _ ▸ by simpa using hc
        · exact h2 x hx2

theorem replaceFirst_decomp (cid : Nat) (s : String) (c' : ChapterRow) :
    ∀ (l₁ : List ChapterRow) (c : ChapterRow) (l₂ : List ChapterRow),
      (∀ x ∈ l₁, (x.course_id == cid && x.slug == s) = false) →
      (c.course_id == cid && c.slug == s) = true →
      replaceFirstChapter cid s c' (l₁ ++ c :: l₂) = l₁ ++ c' :: l₂ := by
  intro l₁
  induction l₁ with
  | nil =>
      intro c l₂ _ hc
      show replaceFirstChapter cid s c' (c :: l₂) = c' :: l₂
      unfold replaceFirstChapter
      rw [if_pos hc]
  | cons x t ih =>
      intro c l₂ hall hc
      show replaceFirstChapter cid s c' (x :: (t ++ c :: l₂)) = x :: (t ++ c' :: l₂)
      unfold replaceFirstChapter
      rw [if_neg (by simp [hall x (by simp)])]
      rw [ih c l₂ (fun y hy => hall y (by simp [hy])) hc]



theorem updateChapter_found_spec :
    ∀ (db : ApiDB) (course : CourseRow) (cs s : String) (req : ChapterUpdate)
      (db' : ApiDB) (row : ChapterRow),
      findCourse db cs = some course →
      updateChapter db cs s req = .ok (db', row) →
      ∃ l₁ c l₂, db.chapters = l₁ ++ c :: l₂
        ∧ c.course_id = course.id ∧ c.slug = s
        ∧ (∀ x ∈ l₁, ¬(x.course_id = course.id ∧ x.slug = s))
        ∧ row = applyChapterUpdate req c
        ∧ db'.chapters = l₁ ++ applyChapterUpdate req c :: l₂
        ∧ db'.courses = db.courses ∧ db'.parts = db.parts
        ∧ db'.exercises = db.exercises ∧ db'.submissions = db.submissions
        ∧ db'.users = db.users := by
  intro db course cs s req db' row hcourse hupd
  unfold updateChapter at hupd
  rw [hcourse] at hupd
  dsimp only at hupd
  cases hfind : findChapterBySlug db course.id s with
  | none => rw [hfind] at hupd; cases hupd
  | some c =>
      rw [hfind] at hupd
      dsimp only at hupd
      split at hupd
      · simp only [Except.ok.injEq, Prod.mk.injEq] at hupd
        obtain ⟨hdb, hrow⟩ := hupd
        unfold findChapterBySlug at hfind
        obtain ⟨l₁, l₂, hsplit, hall, hpc⟩ := find?_decomp _ db.chapters c hfind
        simp only [Bool.and_eq_true, beq_iff_eq] at hpc
        refine ⟨l₁, c, l₂, hsplit, hpc.1, hpc.2, ?_, hrow.symm, ?_, ?_, ?_, ?_, ?_, ?_⟩
        · intro x hx hand
          have hx2 := hall x hx
          simp only [Bool.and_eq_false_iff, beq_eq_false_iff_ne, ne_eq] at hx2
          rcases hx2 with h1 | h2
          · exact h1 hand.1
          · exact h2 hand.2
        · rw [← hdb]
          show replaceFirstChapter course.id s (applyChapterUpdate req c) db.chapters
              = l₁ ++ applyChapterUpdate req c :: l₂
          rw [hsplit]
          apply replaceFirst_decomp
          · exact hall
          · simp [hpc.1, hpc.2]
        · rw [← hdb]
        · rw [← hdb]
        · rw [← hdb]
        · rw [← hdb]
        · rw [← hdb]
      · cases hupd

theorem updateChapter_notfound_spec :
    ∀ (db : ApiDB) (course : CourseRow) (cs s : String) (req : ChapterUpdate),
      findCourse db cs = some course →
      findChapterBySlug db course.id s = none →
      updateChapter db cs s req = .error (.notFound s) := by
  intro db course cs s req hcourse hfind
  unfold updateChapter
  rw [hcourse]
  dsimp only
  rw [hfind]

theorem applyUpdate_field_spec :
    ∀ (req : ChapterUpdate) (c : ChapterRow),
      ((req.part_id = none → (applyChapterUpdate req c).part_id = c.part_id)
        ∧ (∀ v, req.part_id = some v → (applyChapterUpdate req c).part_id = v))
      ∧ ((req.order = none → (applyChapterUpdate req c).order = c.order)
        ∧ (∀ v, req.order = some v → (applyChapterUpdate req c).order = v))
      ∧ ((req.title = none → (applyChapterUpdate req c).title = c.title)
        ∧ (∀ v, req.title = some v → (applyChapterUpdate req c).title = v))
      ∧ ((req.slug = none → (applyChapterUpdate req c).slug = c.slug)
        ∧ (∀ v, req.slug = some v → (applyChapterUpdate req c).slug = v))
      ∧ ((req.content = none → (applyChapterUpdate req c).content = c.content)
        ∧ (∀ v, req.content = some v → (applyChapterUpdate req c).content = v))
      ∧ ((req.synopsis = none → (applyChapterUpdate req c).synopsis = c.synopsis)
        ∧ (∀ v, req.synopsis = some v → (applyChapterUpdate req c).synopsis = v))
      ∧ ((req.image = none → (applyChapterUpdate req c).image = c.image)
        ∧ (∀ v, req.image = some v → (applyChapterUpdate req c).image = v)) := by
  intro req c
  refine ⟨⟨?_, ?_⟩, ⟨?_, ?_⟩, ⟨?_, ?_⟩, ⟨?_, ?_⟩, ⟨?_, ?_⟩, ⟨?_, ?_⟩, ⟨?_, ?_⟩⟩ <;>
    first
    | (intro h; simp [applyChapterUpdate, h])
    | (intro v h; simp [applyChapterUpdate, h])



theorem evaluate_code_spec : ∀ (ex : ExerciseRow) (ans : AnswerValue),
    ex.type = .code → evaluateCorrectness ex ans = false := by
  intro ex ans h
  unfold evaluateCorrectness
  rw [h]

theorem evaluate_mc_bool_spec : ∀ (ex : ExerciseRow) (b : Bool),
    ex.type = .multiple_choice → evaluateCorrectness ex (.bool b) = false := by
  intro ex b h
  unfold evaluateCorrectness
  rw [h]

theorem evaluate_mc_str_spec : ∀ (ex : ExerciseRow) (s : String),
    ex.type = .multiple_choice → evaluateCorrectness ex (.str s) = false := by
  intro ex s h
  unfold evaluateCorrectness
  rw [h]

theorem evaluate_mc_oob_spec : ∀ (ex : ExerciseRow) (i : Int),
    ex.type = .multiple_choice →
    (i < 0 ∨ (ex.content.options.length : Int) ≤ i) →
    evaluateCorrectness ex (.int i) = false := by
  intro ex i ht hb
  unfold evaluateCorrectness
  rw [ht]
  dsimp only
  rw [if_pos]
  rcases hb with h1 | h2
  · simp [h1]
  · simp [h2]

theorem evaluate_mc_inrange_spec : ∀ (ex : ExerciseRow) (i : Int),
    ex.type = .multiple_choice → 0 ≤ i → i < (ex.content.options.length : Int) →
    ∃ o, ex.content.options[i.toNat]? = some o
      ∧ evaluateCorrectness ex (.int i) = o.is_correct.getD false := by
  intro ex i ht h0 hlt
  have hnat : i.toNat < ex.content.options.length := by omega
  obtain ⟨o, ho⟩ : ∃ o, ex.content.options[i.toNat]? = some o :=
    ⟨ex.content.options[i.toNat], List.getElem?_eq_getElem hnat⟩
  refine ⟨o, ho, ?_⟩
  unfold evaluateCorrectness
  rw [ht]
  dsimp only
  rw [if_neg (by simp only [Bool.or_eq_true, decide_eq_true_eq]; omega)]
  rw [ho]

theorem submit_records_spec :
    ∀ (db : ApiDB) (u cid eid : Nat) (ans : AnswerValue) (db' : ApiDB) (row : SubmissionRow),
      submitAnswer db u cid eid ans = .ok (db', row) →
      ∃ ex, db.exercises.find? (fun e => e.id == eid && e.chapter_id == cid) = some ex
        ∧ row.is_correct = evaluateCorrectness ex ans ∧ row.answer = ans := by
  intro db u cid eid ans db' row h
  unfold submitAnswer at h
  cases hfind : db.exercises.find? (fun e => e.id == eid && e.chapter_id == cid) with
  | none => rw [hfind] at h; cases h
  | some ex =>
      rw [hfind] at h
      dsimp only at h
      refine ⟨ex, rfl, ?_⟩
      split at h
      · simp only [Except.ok.injEq, Prod.mk.injEq] at h
        rw [← h.2]
        exact ⟨rfl, rfl⟩
      · simp only [Except.ok.injEq, Prod.mk.injEq] at h
        rw [← h.2]
        exact ⟨rfl, rfl⟩



theorem max?_append_singleton (l : List Int) (a : Int) :
    (l ++ [a]).max? = some (match l.max? with | none => a | some m => max m a) := by
  cases l with
  | nil => rfl
  | cons b bs =>
      show ((b :: bs) ++ [a]).max? = some (max (bs.foldl max b) a)
      rw [List.cons_append]
      show some ((bs ++ [a]).foldl max b) = some (max (bs.foldl max b) a)
      rw [List.foldl_append]
      rfl

theorem ordersRange_max (k : Nat) :
    (((List.range' 1 k).map (fun j => Int.ofNat j)).max?)
      = if k = 0 then none else some (Int.ofNat k) := by
  induction k with
  | zero => rfl
  | succ k ih =>
      rw [List.range'_concat, List.map_append,
        show List.map (fun j => Int.ofNat j) [1 + 1 * k] = [Int.ofNat (1 + 1 * k)] from rfl,
        max?_append_singleton, ih]
      by_cases hk : k = 0
      · subst hk; rfl
      · rw [if_neg hk, if_neg (by omega)]
        simp only [List.map_cons, List.map_nil]
        congr 1
        have h1 : Int.ofNat k ≤ Int.ofNat (1 + 1 * k) := by
          simp only [Int.ofNat_eq_natCast]
          omega
        rw [max_eq_right h1]
        simp only [Int.ofNat_eq_natCast]
        omega

theorem createExercise_order_spec :
    ∀ (db : ApiDB) (ch : Nat) (req : ExerciseCreate) (db' : ApiDB) (row : ExerciseRow),
      createExercise db ch req = .ok (db', row) → row.order = nextOrder db ch := by
  intro db ch req db' row h
  unfold createExercise at h
  split at h
  · dsimp only at h
    split at h
    · simp only [Except.ok.injEq, Prod.mk.injEq] at h
      rw [← h.2]
    · cases h
  · cases h

theorem nextOrder_empty_spec : ∀ (db : ApiDB) (ch : Nat),
    db.exercises.filter (fun e => e.chapter_id == ch) = [] → nextOrder db ch = 1 := by
  intro db ch h
  unfold nextOrder
  rw [h]
  rfl



theorem createMany_dense_aux : ∀ (reqs : List ExerciseCreate) (db : ApiDB) (ch : Nat) (k : Nat),
    (db.chapters.any (fun c => c.id == ch)) = true →
    exerciseConstraints db.exercises →
    ((db.exercises.filter (fun e => e.chapter_id == ch)).map (fun e => e.order))
      = (List.range' 1 k).map (fun j => Int.ofNat j) →
    ∃ db', createMany db ch reqs = .ok db'
      ∧ ((db'.exercises.filter (fun e => e.chapter_id == ch)).map (fun e => e.order))
        = (List.range' 1 (k + reqs.length)).map (fun j => Int.ofNat j) := by
  intro reqs
  induction reqs with
  | nil =>
      intro db ch k hch hcons horders
      exact ⟨db, rfl, by simpa using horders⟩
  | cons r rest ih =>
      intro db ch k hch hcons horders
      have hnext : nextOrder db ch = Int.ofNat (k + 1) := by
        unfold nextOrder
        rw [horders, ordersRange_max]
        by_cases hk : k = 0
        · subst hk; rfl
        · rw [if_neg hk]
          show Int.ofNat k + 1 = Int.ofNat (k + 1)
          simp only [Int.ofNat_eq_natCast]
          omega
      have hrowcid : ((⟨db.nextExerciseId, ch, nextOrder db ch, r.title, r.type,
          r.content, r.image, r.auto_generated⟩ : ExerciseRow).chapter_id == ch) = true := by
        simp
      have hnewcons : exerciseConstraints (db.exercises ++
          [⟨db.nextExerciseId, ch, nextOrder db ch, r.title, r.type,
            r.content, r.image, r.auto_generated⟩]) := by
        unfold exerciseConstraints
        rw [List.pairwise_append]
        refine ⟨hcons, List.pairwise_singleton _ _, ?_⟩
        intro a ha b hb
        rw [List.mem_singleton.mp hb]
        intro hand
        have hmem : a.order ∈ ((db.exercises.filter
            (fun e => e.chapter_id == ch)).map (fun e => e.order)) := by
          apply List.mem_map_of_mem
          rw [List.mem_filter]
          exact ⟨ha, by simp [hand.1]⟩
        rw [horders] at hmem
        obtain ⟨j, hj, hje⟩ := List.mem_map.mp hmem
        rw [List.mem_range'_1] at hj
        rw [hand.2, hnext] at hje
        simp only [Int.ofNat_eq_natCast] at hje
        omega
      have he : createExercise db ch r = .ok
          ({ db with
              exercises := db.exercises ++
                [⟨db.nextExerciseId, ch, nextOrder db ch, r.title, r.type,
                  r.content, r.image, r.auto_generated⟩],
              nextExerciseId := db.nextExerciseId + 1 },
            ⟨db.nextExerciseId, ch, nextOrder db ch, r.title, r.type,
              r.content, r.image, r.auto_generated⟩) := by
        unfold createExercise
        rw [if_pos hch]
        dsimp only
        rw [if_pos hnewcons]
      obtain ⟨db', hrun, horders'⟩ := ih
        ({ db with
            exercises := db.exercises ++
              [⟨db.nextExerciseId, ch, nextOrder db ch, r.title, r.type,
                r.content, r.image, r.auto_generated⟩],
            nextExerciseId := db.nextExerciseId + 1 })
        ch (k + 1) hch hnewcons
        (by
          dsimp only
          rw [List.filter_append]
          rw [show List.filter (fun e => e.chapter_id == ch)
              [(⟨db.nextExerciseId, ch, nextOrder db ch, r.title, r.type,
                r.content, r.image, r.auto_generated⟩ : ExerciseRow)]
            = [⟨db.nextExerciseId, ch, nextOrder db ch, r.title, r.type,
                r.content, r.image, r.auto_generated⟩] from by
            simp [List.filter_cons]]
          rw [List.map_append, horders]
          rw [List.range'_concat, List.map_append]
          congr 1
          show [nextOrder db ch] = List.map (fun j => Int.ofNat j) [1 + 1 * k]
          rw [hnext]
          show [Int.ofNat (k + 1)] = [Int.ofNat (1 + 1 * k)]
          congr 2
          omega)
      refine ⟨db', ?_, ?_⟩
      · show createMany db ch (r :: rest) = .ok db'
        unfold createMany
        rw [he]
        exact hrun
      · rw [horders']
        congr 2
        simp only [List.length_cons]
        omega


theorem digitChar_isDigit (n : Nat) : (digitChar n).isDigit = true := by
  unfold digitChar
  split <;> rfl

theorem natChars_digits : ∀ (n : Nat), ∀ c ∈ natChars n, c.isDigit = true := by
  intro n
  induction n using Nat.strong_induction_on with
  | _ n ih =>
      intro c hc
      by_cases h : n < 10
      · rw [natChars_lt n h] at hc
        rw [List.mem_singleton.mp hc]
        exact digitChar_isDigit n
      · rw [natChars_ge n h] at hc
        rcases List.mem_append.mp hc with h1 | h2
        · exact ih (n / 10) (Nat.div_lt_self (by omega) (by omega)) c h1
        · rw [List.mem_singleton.mp h2]
          exact digitChar_isDigit (n % 10)

theorem fmt2_digits (n : Nat) : ∀ c ∈ fmt2 n, c.isDigit = true := by
  intro c hc
  unfold fmt2 at hc
  by_cases h : n < 10
  · rw [if_pos h] at hc
    rcases List.mem_cons.mp hc with h1 | h2
    · rw [h1]; rfl
    · exact natChars_digits n c h2
  · rw [if_neg h] at hc
    exact natChars_digits n c hc

theorem decValue_snoc (l : List Char) (c : Char) :
    decValue (l ++ [c]) = 10 * decValue l + (c.toNat - 48) := by
  unfold decValue
  rw [List.foldl_append]
  rfl

theorem decValue_natChars : ∀ (n : Nat), decValue (natChars n) = n := by
  intro n
  induction n using Nat.strong_induction_on with
  | _ n ih =>
      by_cases h : n < 10
      · rw [natChars_lt n h]
        show 10 * 0 + ((digitChar n).toNat - 48) = n
        rw [digitChar_toNat n h]
        omega
      · rw [natChars_ge n h, decValue_snoc,
          ih (n / 10) (Nat.div_lt_self (by omega) (by omega)),
          digitChar_toNat (n % 10) (by omega)]
        omega

theorem natChars_inj {k j : Nat} (h : natChars k = natChars j) : k = j := by
  rw [← decValue_natChars k, ← decValue_natChars j, h]

theorem decValue_fmt2 (n : Nat) : decValue (fmt2 n) = n := by
  unfold fmt2
  by_cases h : n < 10
  · rw [if_pos h]
    show decValue (natChars n) = n
    exact decValue_natChars n
  · rw [if_neg h]
    exact decValue_natChars n

theorem fmt2_inj {n m : Nat} (h : fmt2 n = fmt2 m) : n = m := by
  rw [← decValue_fmt2 n, ← decValue_fmt2 m, h]

theorem natChars_length_le : ∀ (d n : Nat), 1 ≤ d → n < 10 ^ d →
    (natChars n).length ≤ d := by
  intro d
  induction d with
  | zero => intro n h; omega
  | succ d ih =>
      intro n _ hn
      by_cases h : n < 10
      · rw [natChars_lt n h]
        simp
      · rw [natChars_ge n h, List.length_append]
        have hd : 1 ≤ d := by
          by_contra hd0
          have : d = 0 := by omega
          subst this
          simp at hn
          omega
        have hdiv : n / 10 < 10 ^ d := by
          rw [Nat.div_lt_iff_lt_mul (by omega)]
          calc n < 10 ^ (d + 1) := hn
          _ = 10 ^ d * 10 := by ring
        have := ih (n / 10) hd hdiv
        simp only [List.length_cons, List.length_nil]
        omega

theorem fmt2_length_le {n : Nat} (h : n < 10 ^ 68) : (fmt2 n).length ≤ 68 := by
  unfold fmt2
  by_cases h10 : n < 10
  · rw [if_pos h10, natChars_lt n h10]
    simp
  · rw [if_neg h10]
    exact natChars_length_le 68 n (by omega) h

theorem digits_run_eq : ∀ (a b x y : List Char),
    (∀ c ∈ a, c.isDigit = true) → (∀ c ∈ b, c.isDigit = true) →
    (∀ c, x.head? = some c → c.isDigit = false) →
    (∀ c, y.head? = some c → c.isDigit = false) →
    a ++ x = b ++ y → a = b := by
  intro a
  induction a with
  | nil =>
      intro b x y _ hb hx _ h
      cases b with
      | nil => rfl
      | cons d bs =>
          exfalso
          simp only [List.nil_append, List.cons_append] at h
          have h1 : x.head? = some d := by rw [h]; rfl
          have h2 := hx d h1
          have h3 := hb d (List.mem_cons_self d bs)
          rw [h2] at h3
          cases h3
  | cons c as ih =>
      intro b x y ha hb hx hy h
      cases b with
      | nil =>
          exfalso
          simp only [List.cons_append, List.nil_append] at h
          have h1 : y.head? = some c := by rw [← h]; rfl
          have h2 := hy c h1
          have h3 := ha c (List.mem_cons_self c as)
          rw [h2] at h3
          cases h3
      | cons d bs =>
          simp only [List.cons_append, List.cons.injEq] at h
          obtain ⟨rfl, h2⟩ := h
          have := ih bs x y (fun e he => ha e (List.mem_cons_of_mem _ he))
            (fun e he => hb e (List.mem_cons_of_mem _ he)) hx hy h2
          rw [this]

theorem numSlug_inj {n m : Nat} {u : String} (hn : numSlug n u) (hm : numSlug m u) :
    n = m := by
  obtain ⟨c, rest, hc, hcd⟩ := hn
  obtain ⟨d, rest', hd, hdd⟩ := hm
  rw [hc] at hd
  rw [List.append_assoc, List.append_assoc] at hd
  have hfmt := List.append_cancel_left hd
  have := digits_run_eq (fmt2 n) (fmt2 m) (c :: rest) (d :: rest')
    (fmt2_digits n) (fmt2_digits m)
    (fun e he => by injection he with he2; rw [← he2]; exact hcd)
    (fun e he => by injection he with he2; rw [← he2]; exact hdd)
    hfmt
  exact fmt2_inj this

theorem truncate80_numSlug (n : Nat) (base : String) (hle : (fmt2 n).length ≤ 68) :
    numSlug n (truncate80 (slugCandidate n base)) := by
  have hd := slugCandidate_data n base
  unfold truncate80
  by_cases h : (slugCandidate n base).length ≤ 80
  · rw [if_pos h]
    exact ⟨'-', base.data, by rw [hd, List.append_assoc], rfl⟩
  · rw [if_neg h]
    have h77 : (slugCandidate n base).data.take 77
        = ((chapPre ++ fmt2 n) ++ ['-'])
          ++ base.data.take (77 - ((chapPre ++ fmt2 n) ++ ['-']).length) := by
      rw [hd,
        show chapPre ++ fmt2 n ++ '-' :: base.data
          = ((chapPre ++ fmt2 n) ++ ['-']) ++ base.data by simp,
        List.take_append_eq_append_take,
        List.take_of_length_le (by simp [chapPre_length]; omega)]
    rw [h77]
    by_cases hm : '-' ∈ base.data.take (77 - ((chapPre ++ fmt2 n) ++ ['-']).length)
    · obtain ⟨a, b, hab, hb⟩ := splitLastHyphen _ hm
      rw [hab,
        show ((chapPre ++ fmt2 n) ++ ['-']) ++ (a ++ '-' :: b)
          = (((chapPre ++ fmt2 n) ++ ['-']) ++ a) ++ '-' :: b by simp,
        cutLastHyphen_spec _ _ hb]
      exact ⟨'-', a ++ ['.', '.', '.'], by simp, rfl⟩
    · rw [show ((chapPre ++ fmt2 n) ++ ['-'])
            ++ base.data.take (77 - ((chapPre ++ fmt2 n) ++ ['-']).length)
          = (chapPre ++ fmt2 n)
            ++ '-' :: base.data.take (77 - ((chapPre ++ fmt2 n) ++ ['-']).length) by simp,
        cutLastHyphen_spec _ _ hm]
      exact ⟨'.', ['.', '.'], by simp, rfl⟩

theorem slugFor_eq (used : List String) (i : Nat) (title : String)
    (hle : (fmt2 i).length ≤ 68)
    (hinv : ∀ u ∈ used, ∃ m, m ≠ i ∧ numSlug m u) :
    slugFor used i title = truncate80 (slugCandidate i (slugify title)) := by
  unfold slugFor uniquify
  have hnot : truncate80 (slugCandidate i (slugify title)) ∉ used := by
    intro hmem
    obtain ⟨m, hmne, hmslug⟩ := hinv _ hmem
    exact hmne (numSlug_inj hmslug (truncate80_numSlug i (slugify title) hle))
  simp [hnot]

theorem assignChapters_eq_pure : ∀ (l : List PChapter) (i : Nat) (used : List String),
    i + l.length ≤ 10 ^ 68 →
    (∀ u ∈ used, ∃ m, m < i ∧ numSlug m u) →
    assignChapters i used l = pureAssign i l := by
  intro l
  induction l with
  | nil => intro i used _ _; rfl
  | cons c rest ih =>
      intro i used hbound hinv
      have hi : (fmt2 i).length ≤ 68 := by
        apply fmt2_length_le
        simp only [List.length_cons] at hbound
        omega
      have hs : slugFor used i c.title = truncate80 (slugCandidate i (slugify c.title)) := by
        apply slugFor_eq used i c.title hi
        intro u hu
        obtain ⟨m, h2, h3⟩ := hinv u hu
        exact ⟨m, by omega, h3⟩
      simp only [assignChapters, pureAssign, hs]
      congr 1
      apply ih (i + 1)
      · simp only [List.length_cons] at hbound; omega
      · intro u hu
        rcases List.mem_cons.mp hu with h1 | h2
        · exact ⟨i, by omega, by rw [h1]; exact truncate80_numSlug i (slugify c.title) hi⟩
        · obtain ⟨m, h2, h3⟩ := hinv u h2
          exact ⟨m, by omega, h3⟩

theorem flat_assignParts_eq_pure : ∀ (ps : List DetPart) (i : Nat) (used : List String),
    i + (detChapters ps).length ≤ 10 ^ 68 →
    (∀ u ∈ used, ∃ m, m < i ∧ numSlug m u) →
    flatChapters (assignParts i used ps) = pureAssign i (detChapters ps) := by
  intro ps
  induction ps with
  | nil => intro i used _ _; rfl
  | cons p rest ih =>
      intro i used hbound hinv
      have hlens : (detChapters (p :: rest)).length
          = p.chapters.length + (detChapters rest).length := by
        rw [detChapters_cons, List.length_append]
      have hb1 : i + p.chapters.length ≤ 10 ^ 68 := by omega
      have h1 : assignChapters i used p.chapters = pureAssign i p.chapters :=
        assignChapters_eq_pure p.chapters i used hb1 hinv
      simp only [assignParts, flatChapters_cons, h1, detChapters_cons]
      rw [pureAssign_append, pureAssign_length]
      congr 1
      apply ih
      · omega
      · intro u hu
        rcases List.mem_append.mp hu with h2 | h3
        · obtain ⟨d, hd, hds⟩ := List.mem_map.mp h2
          obtain ⟨ha, hb2, hc⟩ := pureAssign_mem p.chapters i d hd
          refine ⟨d.num, by omega, ?_⟩
          rw [← hds, hc]
          exact truncate80_numSlug d.num (slugify d.title) (fmt2_length_le (by omega))
        · obtain ⟨m, hm2, hm3⟩ := hinv u h3
          exact ⟨m, by omega, hm3⟩

theorem counterCand_inj (s : String) : Function.Injective
    (fun k : Nat => s ++ "-" ++ String.mk (natChars k)) := by
  intro k j h
  have hdata := congrArg String.data h
  simp only [String.data_append] at hdata
  exact natChars_inj (List.append_cancel_left hdata)

theorem uniquifyFrom_not_mem (used : List String) (s : String) :
    ∀ (fuel k : Nat),
    (∃ j, k ≤ j ∧ j < k + fuel ∧ (s ++ "-" ++ String.mk (natChars j)) ∉ used) →
    uniquifyFrom used s k fuel ∉ used := by
  intro fuel
  induction fuel with
  | zero =>
      intro k h
      obtain ⟨j, h1, h2, _⟩ := h
      omega
  | succ fuel ih =>
      intro k h
      obtain ⟨j, h1, h2, h3⟩ := h
      unfold uniquifyFrom
      dsimp only
      by_cases hc : (s ++ "-" ++ String.mk (natChars k)) ∈ used
      · rw [if_pos hc]
        apply ih (k + 1)
        have hjk : j ≠ k := by
          intro he
          rw [he] at h3
          exact h3 hc
        exact ⟨j, by omega, by omega, h3⟩
      · rw [if_neg hc]
        exact hc

theorem exists_fresh_counter (used : List String) (s : String) :
    ∃ j, 1 ≤ j ∧ j < 1 + (used.length + 1)
      ∧ (s ++ "-" ++ String.mk (natChars j)) ∉ used := by
  by_contra hall
  push_neg at hall
  have hsub : ((List.range' 1 (used.length + 1)).map
      (fun k => s ++ "-" ++ String.mk (natChars k))) ⊆ used := by
    intro u hu
    obtain ⟨j, hj, hje⟩ := List.mem_map.mp hu
    rw [List.mem_range'_1] at hj
    rw [← hje]
    exact hall j hj.1 hj.2
  have hnd : ((List.range' 1 (used.length + 1)).map
      (fun k => s ++ "-" ++ String.mk (natChars k))).Nodup :=
    List.Nodup.map (counterCand_inj s) (List.nodup_range' 1 (used.length + 1))
  have hle := (List.Nodup.subperm hnd hsub).length_le
  rw [List.length_map, List.length_range'] at hle
  omega

theorem uniquify_not_mem (used : List String) (s : String) :
    uniquify used s ∉ used := by
  unfold uniquify
  by_cases h : s ∈ used
  · rw [if_pos h]
    apply uniquifyFrom_not_mem
    obtain ⟨j, h1, h2, h3⟩ := exists_fresh_counter used s
    exact ⟨j, h1, h2, h3⟩
  · rw [if_neg h]
    exact h

theorem assignChapters_nodup : ∀ (l : List PChapter) (i : Nat) (used : List String),
    ((assignChapters i used l).map (fun c => c.slug)).Nodup
    ∧ ∀ s ∈ (assignChapters i used l).map (fun c => c.slug), s ∉ used := by
  intro l
  induction l with
  | nil =>
      intro i used
      exact ⟨List.Pairwise.nil, fun s hs => absurd hs (List.not_mem_nil s)⟩
  | cons c rest ih =>
      intro i used
      obtain ⟨ihn, ihm⟩ := ih (i + 1) (slugFor used i c.title :: used)
      simp only [assignChapters, List.map_cons]
      constructor
      · rw [List.nodup_cons]
        refine ⟨?_, ihn⟩
        intro hmem
        exact (ihm _ hmem) (List.mem_cons_self _ _)
      · intro s hs
        rcases List.mem_cons.mp hs with h1 | h2
        · rw [h1]
          exact uniquify_not_mem used _
        · intro hu
          exact (ihm s h2) (List.mem_cons_of_mem _ hu)

theorem assignParts_nodup : ∀ (ps : List DetPart) (i : Nat) (used : List String),
    ((flatChapters (assignParts i used ps)).map (fun c => c.slug)).Nodup
    ∧ ∀ s ∈ (flatChapters (assignParts i used ps)).map (fun c => c.slug), s ∉ used := by
  intro ps
  induction ps with
  | nil =>
      intro i used
      exact ⟨List.Pairwise.nil, fun s hs => absurd hs (List.not_mem_nil s)⟩
  | cons p rest ih =>
      intro i used
      obtain ⟨chN, chM⟩ := assignChapters_nodup p.chapters i used
      obtain ⟨restN, restM⟩ := ih (i + (assignChapters i used p.chapters).length)
        ((assignChapters i used p.chapters).map (fun c => c.slug) ++ used)
      simp only [assignParts, flatChapters_cons, List.map_append]
      constructor
      · apply List.Nodup.append chN restN
        rw [List.disjoint_left]
        intro a ha hb
        exact (restM a hb) (List.mem_append.mpr (Or.inl ha))
      · intro s hs
        rcases List.mem_append.mp hs with h1 | h2
        · exact chM s h1
        · intro hu
          exact (restM s h2) (List.mem_append.mpr (Or.inr hu))

/-- C1: in every pipeline run the final chapter numbers of the output are
exactly the dense sequence 1..N in output-list order (first conjunct), and
the declared numbers recovered from source labels never influence the
output's numbering, titles, slugs or order: rewriting them arbitrarily
leaves the projection of the output unchanged (second conjunct). -/
theorem claim1_final_numbering_dense (ps : List DetPart) (g : PChapter → Option Nat) :
    (flatChapters (finalizeParts ps)).map (fun c => c.num)
        = List.range' 1 (flatChapters (finalizeParts ps)).length
      ∧ (flatChapters (finalizeParts (ps.map (setDeclared g)))).map chapterKey
        = (flatChapters (finalizeParts ps)).map chapterKey := by
  constructor
  · unfold finalizeParts
    rw [flatChapters_assignParts_num, flatChapters_assignParts_length]
  · unfold finalizeParts
    rw [filtered_setDecl]
    exact assignParts_setDecl_key g _ 1 []

/-- C2: in every pipeline run the output slugs are pairwise unique across
the whole book — unconditionally, guaranteed by the numeric-suffix counter
applied on collision against all slugs assigned so far — and, for every run
whose surviving-chapter count is below ten to the 68th (the regime in which
the zero-padded chapter number of the slug scheme always fits inside the
80-character truncation window; no run a real book can produce is
excluded), each slug is at most 80 characters long and is exactly the
candidate chapter-NN-base (NN the final number, base the slugified title)
passed through the 80-character hyphen-boundary ellipsis truncation. -/
theorem claim2_unique_bounded_slugs (ps : List DetPart) :
    ((flatChapters (finalizeParts ps)).map (fun c => c.slug)).Nodup
    ∧ ((detChapters ps).length < 10 ^ 68 →
        ∀ c ∈ flatChapters (finalizeParts ps),
          c.slug.length ≤ 80
          ∧ c.slug = truncate80 (slugCandidate c.num (slugify c.title))) := by
  constructor
  · exact (assignParts_nodup _ 1 []).1
  · intro hps
    have hle := filtered_detChapters_len_le ps
    have heq : flatChapters (finalizeParts ps)
        = pureAssign 1
          (detChapters ((ps.map filterPart).filter (fun p => !p.chapters.isEmpty))) := by
      unfold finalizeParts
      apply flat_assignParts_eq_pure _ 1 []
      · omega
      · intro u hu; cases hu
    rw [heq]
    intro c hc
    obtain ⟨ha, hb, hcf⟩ := pureAssign_mem _ 1 c hc
    constructor
    · rw [hcf]
      show (truncate80 (slugCandidate c.num (slugify c.title))).length ≤ 80
      exact truncate80_length _
    · exact hcf

/-- Witness for C2 at a concrete two-chapter input, one of which slugifies
past the 80-character budget. -/
theorem claim2_unique_bounded_slugs_witness :
    ((flatChapters (finalizeParts wParts)).map (fun c => c.slug)).Nodup
    ∧ ((detChapters wParts).length < 10 ^ 68
       ∧ ∀ c ∈ flatChapters (finalizeParts wParts),
           c.slug.length ≤ 80
           ∧ c.slug = truncate80 (slugCandidate c.num (slugify c.title))) :=
  ⟨(claim2_unique_bounded_slugs wParts).1,
   by norm_num [detChapters, wParts],
   (claim2_unique_bounded_slugs wParts).2 (by norm_num [detChapters, wParts])⟩

/-- C3: the label classifier maps "III. Advanced Topics" to
(part, 3, "Advanced Topics"), "1.1 Memory" to (other, none, "1.1 Memory")
because the dotted-decimal check runs before the generic leading-number
rule, and the compact "Chapter3Networking" to (chapter, 3, "Networking"). -/
theorem claim3_classifier_examples :
    classifyLabel "III. Advanced Topics" = ⟨.part, some 3, "Advanced Topics"⟩
    ∧ classifyLabel "1.1 Memory" = ⟨.other, none, "1.1 Memory"⟩
    ∧ classifyLabel "Chapter3Networking" = ⟨.chapter, some 3, "Networking"⟩ :=
  ⟨rfl, rfl, rfl⟩

/-- C4 counterexample: contrary to the claim, a chapter titled
"Chapter 1: Introduction to Databases" does NOT appear in the final output —
its title case-insensitively contains the denylist term "introduction", so
the run consisting of exactly that chapter produces an empty output. -/
theorem claim4_counterexample :
    finalizeParts [⟨0, "General",
      [⟨none, "Chapter 1: Introduction to Databases", ""⟩]⟩] = [] := rfl

/-- C4 amended: front-matter filtering drops every chapter whose title
case-insensitively contains a denylist term; consequently no chapter titled
"Preface" ever appears, and a chapter titled
"Chapter 1: Introduction to Databases" is likewise dropped (its title
contains "introduction"), while a chapter titled "Chapter 1: Databases"
does appear. -/
theorem claim4_front_matter_filtering (ps : List DetPart) :
    (flatChapters (finalizeParts ps)).all (fun c => !isFrontMatter c.title) = true
    ∧ (flatChapters (finalizeParts ps)).all (fun c => c.title != "Preface") = true
    ∧ finalizeParts [⟨0, "General", [⟨none, "Preface", ""⟩]⟩] = []
    ∧ finalizeParts [⟨0, "General",
        [⟨none, "Chapter 1: Introduction to Databases", ""⟩]⟩] = []
    ∧ (flatChapters (finalizeParts [⟨0, "General",
        [⟨none, "Chapter 1: Databases", "x"⟩]⟩])).map (fun c => c.title)
      = ["Chapter 1: Databases"] :=
  ⟨output_no_front_matter ps, output_no_preface ps, rfl, rfl, rfl⟩

/-- C5: with at least one loadable document, zero navigation structure and
zero content-heuristic matches, the pipeline completes normally with an
empty chapter list and a structurally valid minimal course plan instead of
raising. -/
theorem claim5_unparseable_book_plan (title : String) (docs : List Doc)
    (hne : docs ≠ []) (hsig : ∀ d ∈ docs, contentSignal d = false) :
    ∃ plan, pipelineRun title [] docs = .ok plan
      ∧ flatChapters plan.parts = [] ∧ planValid plan = true := by
  refine ⟨⟨title, [], 0, 0⟩, ?_, rfl, rfl⟩
  unfold pipelineRun
  rw [if_neg (by simp [hne])]
  rw [show detectParts [] docs = [] by
    unfold detectParts
    rw [if_pos (by rfl), contentDriven_nil docs hsig]
    rfl]
  rfl

/-- Witness for C5 at a concrete signal-free document. -/
theorem claim5_unparseable_book_plan_witness :
    wDocs ≠ []
    ∧ ∃ plan, pipelineRun "B" [] wDocs = .ok plan
        ∧ flatChapters plan.parts = [] ∧ planValid plan = true :=
  ⟨by decide, claim5_unparseable_book_plan "B" wDocs (by decide) (by decide)⟩


/-- C6 counterexample: contrary to the claim, chapter sequence numbers need
not be dense starting at one: from the empty database, creating a course
and then a chapter whose request carries order five yields a reachable
state whose single chapter has order five. -/
theorem claim6_counterexample : Reachable cxDb2 ∧ courseOrdersDense cxDb2 = false := by
  constructor
  · exact @Reachable.createChapter cxDb1 cxDb2 "c" ⟨none, 5, "T", "t", none, none, none⟩
      cxChapterRow
      (@Reachable.createCourse emptyDB cxDb1 ⟨"C", "c", none, none⟩ cxCourseRow
        Reachable.init (by rfl))
      (by rfl)
  · rfl

/-- C6 amended: in every reachable state the chapters table satisfies its
unique constraints — slugs are unique within each course and so are order
values — and creating a second chapter with an already-used slug in the
same course fails with an integrity error rather than succeeding; density
of the sequence numbers, however, is not enforced (orders come from the
caller). -/
theorem claim6_chapter_uniqueness_invariant :
    (∀ db : ApiDB, Reachable db → chapterConstraints db.chapters)
    ∧ (∀ (db : ApiDB) (course : CourseRow) (slug : String) (req : ChapterCreate),
        findCourse db slug = some course →
        (∃ c ∈ db.chapters, c.course_id = course.id ∧ c.slug = req.slug) →
        createChapter db slug req = .error .integrity) :=
  ⟨reachable_chapterConstraints, createChapter_dup_slug_fails⟩

/-- Witness for C6 amended: the invariant holds at the concrete reachable
state, and a duplicate-slug creation there is rejected. -/
theorem claim6_chapter_uniqueness_invariant_witness :
    chapterConstraints cxDb2.chapters
    ∧ createChapter cxDb2 "c" ⟨none, 7, "U", "t", none, none, none⟩ = .error .integrity := by
  constructor
  · exact claim6_chapter_uniqueness_invariant.1 cxDb2
      (@Reachable.createChapter cxDb1 cxDb2 "c" ⟨none, 5, "T", "t", none, none, none⟩
        cxChapterRow
        (@Reachable.createCourse emptyDB cxDb1 ⟨"C", "c", none, none⟩ cxCourseRow
          Reachable.init (by rfl))
        (by rfl))
  · exact claim6_chapter_uniqueness_invariant.2 cxDb2 cxCourseRow "c"
      ⟨none, 7, "U", "t", none, none, none⟩ (by rfl)
      ⟨cxChapterRow, by decide, rfl, rfl⟩

/-- C7: the chapter write-back update is keyed by chapter slug within a
course — on success it modifies exactly the first (and, under the unique
constraint, only) chapter of the course with that slug, leaving every other
row and every other table unchanged; when no chapter of the course has the
slug it fails with a not-found error; and the applied update sets exactly
the supplied fields and keeps every unsupplied field. -/
theorem claim7_update_keyed_by_slug :
    (∀ (db : ApiDB) (course : CourseRow) (cs s : String) (req : ChapterUpdate)
        (db' : ApiDB) (row : ChapterRow),
      findCourse db cs = some course →
      updateChapter db cs s req = .ok (db', row) →
      ∃ l₁ c l₂, db.chapters = l₁ ++ c :: l₂
        ∧ c.course_id = course.id ∧ c.slug = s
        ∧ (∀ x ∈ l₁, ¬(x.course_id = course.id ∧ x.slug = s))
        ∧ row = applyChapterUpdate req c
        ∧ db'.chapters = l₁ ++ applyChapterUpdate req c :: l₂
        ∧ db'.courses = db.courses ∧ db'.parts = db.parts
        ∧ db'.exercises = db.exercises ∧ db'.submissions = db.submissions
        ∧ db'.users = db.users)
    ∧ (∀ (db : ApiDB) (course : CourseRow) (cs s : String) (req : ChapterUpdate),
        findCourse db cs = some course →
        findChapterBySlug db course.id s = none →
        updateChapter db cs s req = .error (.notFound s))
    ∧ (∀ (req : ChapterUpdate) (c : ChapterRow),
        ((req.part_id = none → (applyChapterUpdate req c).part_id = c.part_id)
          ∧ (∀ v, req.part_id = some v → (applyChapterUpdate req c).part_id = v))
        ∧ ((req.order = none → (applyChapterUpdate req c).order = c.order)
          ∧ (∀ v, req.order = some v → (applyChapterUpdate req c).order = v))
        ∧ ((req.title = none → (applyChapterUpdate req c).title = c.title)
          ∧ (∀ v, req.title = some v → (applyChapterUpdate req c).title = v))
        ∧ ((req.slug = none → (applyChapterUpdate req c).slug = c.slug)
          ∧ (∀ v, req.slug = some v → (applyChapterUpdate req c).slug = v))
        ∧ ((req.content = none → (applyChapterUpdate req c).content = c.content)
          ∧ (∀ v, req.content = some v → (applyChapterUpdate req c).content = v))
        ∧ ((req.synopsis = none → (applyChapterUpdate req c).synopsis = c.synopsis)
          ∧ (∀ v, req.synopsis = some v → (applyChapterUpdate req c).synopsis = v))
        ∧ ((req.image = none → (applyChapterUpdate req c).image = c.image)
          ∧ (∀ v, req.image = some v → (applyChapterUpdate req c).image = v))) :=
  ⟨updateChapter_found_spec, updateChapter_notfound_spec, applyUpdate_field_spec⟩

/-- Witness for C7: a concrete title-only update modifies exactly the
addressed chapter, a missing slug yields not-found, and the unsupplied
slug field of the concrete request is preserved. -/
theorem claim7_update_keyed_by_slug_witness :
    (∃ l₁ c l₂, cxDb2.chapters = l₁ ++ c :: l₂
      ∧ c.course_id = cxCourseRow.id ∧ c.slug = "t"
      ∧ (∀ x ∈ l₁, ¬(x.course_id = cxCourseRow.id ∧ x.slug = "t"))
      ∧ (⟨1, 1, none, 5, "T2", "t", none, none, none⟩ : ChapterRow)
          = applyChapterUpdate wUpdReq c
      ∧ wUpdDb.chapters = l₁ ++ applyChapterUpdate wUpdReq c :: l₂
      ∧ wUpdDb.courses = cxDb2.courses ∧ wUpdDb.parts = cxDb2.parts
      ∧ wUpdDb.exercises = cxDb2.exercises ∧ wUpdDb.submissions = cxDb2.submissions
      ∧ wUpdDb.users = cxDb2.users)
    ∧ updateChapter cxDb2 "c" "missing" wUpdReq = .error (.notFound "missing")
    ∧ (applyChapterUpdate wUpdReq cxChapterRow).slug = cxChapterRow.slug := by
  refine ⟨?_, ?_, ?_⟩
  · exact claim7_update_keyed_by_slug.1 cxDb2 cxCourseRow "c" "t" wUpdReq wUpdDb
      ⟨1, 1, none, 5, "T2", "t", none, none, none⟩ (by rfl) (by rfl)
  · exact claim7_update_keyed_by_slug.2.1 cxDb2 cxCourseRow "c" "missing" wUpdReq
      (by rfl) (by rfl)
  · exact (claim7_update_keyed_by_slug.2.2 wUpdReq cxChapterRow).2.2.2.1.1 rfl

/-- C8: a code exercise records is_correct false for every answer; a
multiple-choice exercise rejects boolean and string answers, returns false
for every negative or out-of-range integer answer instead of erroring, and
for an in-range integer returns the is_correct flag of the selected option;
the submission handler stores exactly the evaluated correctness and the
submitted answer. -/
theorem claim8_answer_evaluation :
    (∀ (ex : ExerciseRow) (ans : AnswerValue),
      ex.type = .code → evaluateCorrectness ex ans = false)
    ∧ (∀ (ex : ExerciseRow) (b : Bool),
      ex.type = .multiple_choice → evaluateCorrectness ex (.bool b) = false)
    ∧ (∀ (ex : ExerciseRow) (s : String),
      ex.type = .multiple_choice → evaluateCorrectness ex (.str s) = false)
    ∧ (∀ (ex : ExerciseRow) (i : Int),
      ex.type = .multiple_choice →
      (i < 0 ∨ (ex.content.options.length : Int) ≤ i) →
      evaluateCorrectness ex (.int i) = false)
    ∧ (∀ (ex : ExerciseRow) (i : Int),
      ex.type = .multiple_choice → 0 ≤ i → i < (ex.content.options.length : Int) →
      ∃ o, ex.content.options[i.toNat]? = some o
        ∧ evaluateCorrectness ex (.int i) = o.is_correct.getD false)
    ∧ (∀ (db : ApiDB) (u cid eid : Nat) (ans : AnswerValue) (db' : ApiDB)
        (row : SubmissionRow),
      submitAnswer db u cid eid ans = .ok (db', row) →
      ∃ ex, db.exercises.find? (fun e => e.id == eid && e.chapter_id == cid) = some ex
        ∧ row.is_correct = evaluateCorrectness ex ans ∧ row.answer = ans) :=
  ⟨evaluate_code_spec, evaluate_mc_bool_spec, evaluate_mc_str_spec,
   evaluate_mc_oob_spec, evaluate_mc_inrange_spec, submit_records_spec⟩

/-- Witness for C8 at concrete exercises and answers. -/
theorem claim8_answer_evaluation_witness :
    evaluateCorrectness wExCode (.str "print") = false
    ∧ evaluateCorrectness wExMC (.bool true) = false
    ∧ evaluateCorrectness wExMC (.int (-1)) = false
    ∧ evaluateCorrectness wExMC (.int 5) = false
    ∧ (∃ o, wExMC.content.options[(1 : Int).toNat]? = some o
        ∧ evaluateCorrectness wExMC (.int 1) = o.is_correct.getD false)
    ∧ (∃ ex, wSubDb.exercises.find? (fun e => e.id == 1 && e.chapter_id == 1) = some ex
        ∧ (⟨1, 9, 1, .int 1, true⟩ : SubmissionRow).is_correct
            = evaluateCorrectness ex (.int 1)
        ∧ (⟨1, 9, 1, .int 1, true⟩ : SubmissionRow).answer = .int 1) := by
  refine ⟨?_, ?_, ?_, ?_, ?_, ?_⟩
  · exact claim8_answer_evaluation.1 wExCode (.str "print") rfl
  · exact claim8_answer_evaluation.2.1 wExMC true rfl
  · exact claim8_answer_evaluation.2.2.2.1 wExMC (-1) rfl (Or.inl (by decide))
  · exact claim8_answer_evaluation.2.2.2.1 wExMC 5 rfl (Or.inr (by decide))
  · exact claim8_answer_evaluation.2.2.2.2.1 wExMC 1 rfl (by decide) (by decide)
  · exact claim8_answer_evaluation.2.2.2.2.2 wSubDb 9 1 1 (.int 1)
      ⟨[], [], [], [], [wExMC], [⟨1, 9, 1, .int 1, true⟩], 1, 1, 1, 1, 3, 2⟩
      ⟨1, 9, 1, .int 1, true⟩ (by rfl)

/-- C9: registration is atomic against the unique constraints on email and
username: on a collision it returns 409 Conflict and leaves the user table
(indeed the whole state) unchanged; otherwise it appends exactly one new
user whose stored credential is the bcrypt hash of the password, never the
password itself. -/
theorem claim9_register_conflict_or_hash :
    ∀ (hashPw : String → String) (db : ApiDB) (req : UserCreate),
    ((db.users.any (fun u => u.email == req.email || u.username == req.username)) = true →
      register hashPw db req = (db, .error (.conflict req.email)))
    ∧ ((db.users.any (fun u => u.email == req.email || u.username == req.username)) = false →
      register hashPw db req =
        ({ db with
            users := db.users ++
              [⟨db.nextUserId, req.email, req.username, hashPw req.password, true⟩],
            nextUserId := db.nextUserId + 1 },
         .ok ⟨db.nextUserId, req.email, req.username, hashPw req.password, true⟩)) := by
  intro hashPw db req
  constructor
  · intro h
    unfold register
    rw [if_pos h]
  · intro h
    unfold register
    rw [if_neg (by simp [h])]

/-- Witness for C9: a colliding email at the concrete state is rejected
with the state unchanged, and a fresh registration stores the hash. -/
theorem claim9_register_conflict_or_hash_witness :
    register (fun s => "h:" ++ s) wUserDb ⟨"a@x", "bob", "pw"⟩
      = (wUserDb, .error (.conflict "a@x"))
    ∧ register (fun s => "h:" ++ s) wUserDb ⟨"b@x", "bob", "pw"⟩
      = ({ wUserDb with
            users := wUserDb.users ++ [⟨2, "b@x", "bob", "h:" ++ "pw", true⟩],
            nextUserId := 3 },
         .ok ⟨2, "b@x", "bob", "h:" ++ "pw", true⟩) := by
  constructor
  · exact (claim9_register_conflict_or_hash (fun s => "h:" ++ s) wUserDb
      ⟨"a@x", "bob", "pw"⟩).1 (by decide)
  · exact (claim9_register_conflict_or_hash (fun s => "h:" ++ s) wUserDb
      ⟨"b@x", "bob", "pw"⟩).2 (by decide)

/-- C10: exercise creation never takes an order from the caller (the
request type has no order field; the stored order is always the computed
next order), the next order of a chapter with no exercises is one, and any
sequence of creations into one chapter starting from no exercises succeeds
with the dense order sequence 1..N — the chapter-order unique constraint is
never violated. -/
theorem claim10_exercise_order_assignment :
    (∀ (db : ApiDB) (ch : Nat) (req : ExerciseCreate) (db' : ApiDB) (row : ExerciseRow),
      createExercise db ch req = .ok (db', row) → row.order = nextOrder db ch)
    ∧ (∀ (db : ApiDB) (ch : Nat),
      db.exercises.filter (fun e => e.chapter_id == ch) = [] → nextOrder db ch = 1)
    ∧ (∀ (db : ApiDB) (ch : Nat) (reqs : List ExerciseCreate),
      (db.chapters.any (fun c => c.id == ch)) = true →
      exerciseConstraints db.exercises →
      db.exercises.filter (fun e => e.chapter_id == ch) = [] →
      ∃ db', createMany db ch reqs = .ok db'
        ∧ ((db'.exercises.filter (fun e => e.chapter_id == ch)).map (fun e => e.order))
          = (List.range' 1 reqs.length).map (fun j => Int.ofNat j)) := by
  refine ⟨createExercise_order_spec, nextOrder_empty_spec, ?_⟩
  intro db ch reqs h1 h2 h3
  have := createMany_dense_aux reqs db ch 0 h1 h2 (by rw [h3]; rfl)
  simpa using this

/-- Witness for C10: two creations into the concrete empty chapter succeed
with orders one and two. -/
theorem claim10_exercise_order_assignment_witness :
    nextOrder cxDb2 1 = 1
    ∧ ∃ db', createMany cxDb2 1 wExReqs = .ok db'
        ∧ ((db'.exercises.filter (fun e => e.chapter_id == 1)).map (fun e => e.order))
          = (List.range' 1 wExReqs.length).map (fun j => Int.ofNat j) := by
  constructor
  · exact claim10_exercise_order_assignment.2.1 cxDb2 1 (by rfl)
  · exact claim10_exercise_order_assignment.2.2 cxDb2 1 wExReqs (by rfl)
      List.Pairwise.nil (by rfl)

end Brainer
